import Mathlib

/-!
Verification of `json_convert.py`: four leaf operations (JSON formatting,
transcript extraction, HTTP fetch, file writing), shallowly embedded.

Modelling conventions:
* Python's `json` module is embedded as an executable parser/serializer over an
  inductive `Json` value type.  JSON numbers are modelled on the integer
  fragment (Python `int`); float literals fall outside the exact embedding
  (IEEE semantics) and the modelled parser rejects them, as it does lone
  surrogate `\u` escapes, which cannot inhabit `Char`.
* Python exceptions are an explicit `PyErr` value; a function body that can
  raise returns `Except PyErr α`, and the `try/except` wrapper pattern-matches
  on exactly the constructors the source catches.  An `Except.error` escaping
  the wrapper models an uncaught exception.
* Network and filesystem effects are state-passed: HTTP is an oracle function
  from (url, headers) to an outcome; the filesystem is a record of directories
  and files (file contents as UTF-8 byte lists).
-/

/-- A JSON value as produced by `json.loads` (integer-fragment numbers). -/
inductive Json where
| null : Json
| bool (b : Bool) : Json
| num (n : Int) : Json
| str (s : String) : Json
| arr (elements : List Json) : Json
| obj (members : List (String × Json)) : Json

/-! ## Lexical helpers for the modelled `json.loads` -/

/-- JSON whitespace (the characters `json.decoder.WHITESPACE` skips). -/
def isJsonWs (c : Char) : Bool :=
  c == ' ' || c == '\t' || c == '\n' || c == '\r'

/-- Drop leading JSON whitespace. -/
def skipSpace : List Char → List Char
| c :: cs => if isJsonWs c then skipSpace cs else c :: cs
| [] => []

def isDigitCh (c : Char) : Bool := '0' ≤ c && c ≤ '9'

/-- A maximal run of decimal digits and the remainder. -/
def readDigits : List Char → List Char × List Char
| c :: cs =>
  if isDigitCh c then
    let (ds, r) := readDigits cs
    (c :: ds, r)
  else ([], c :: cs)
| [] => ([], [])

/-- The natural number denoted by a digit run. -/
def digitsVal (ds : List Char) : Nat :=
  ds.foldl (fun acc c => acc * 10 + (c.toNat - '0'.toNat)) 0

/-- The value of one hexadecimal digit, if it is one (decided over the code
point: `0`-`9`, `a`-`f`, `A`-`F`). -/
def hexCharVal (c : Char) : Option Nat :=
  let n := c.toNat
  if 48 ≤ n ∧ n ≤ 57 then some (n - 48)
  else if 97 ≤ n ∧ n ≤ 102 then some (n - 87)
  else if 65 ≤ n ∧ n ≤ 70 then some (n - 55)
  else none

/-- Value of a four-hex-digit escape payload. -/
def hexQuad (a b c d : Char) : Option Nat := do
  let va ← hexCharVal a
  let vb ← hexCharVal b
  let vc ← hexCharVal c
  let vd ← hexCharVal d
  pure (((va * 16 + vb) * 16 + vc) * 16 + vd)

/-- The single-character JSON escapes (`json.decoder.BACKSLASH`). -/
def shortEscape : Char → Option Char
| '"' => some '"'
| '\\' => some '\\'
| '/' => some '/'
| 'b' => some (Char.ofNat 8)
| 'f' => some (Char.ofNat 12)
| 'n' => some '\n'
| 'r' => some '\r'
| 't' => some '\t'
| _ => none

/-- Scan a JSON string body after its opening quote (strict mode: raw control
characters are rejected).  Surrogate pairs in `\u` escapes are combined; a lone
surrogate cannot inhabit `Char` and is outside the modelled fragment. -/
def scanString (acc : List Char) : List Char → Except String (String × List Char)
| '"' :: rest => .ok (String.mk acc.reverse, rest)
| '\\' :: 'u' :: a :: b :: c :: d :: rest =>
  match hexQuad a b c d with
  | none => .error "Invalid \\uXXXX escape"
  | some n =>
    if 0xD800 ≤ n ∧ n ≤ 0xDBFF then
      match rest with
      | '\\' :: 'u' :: a2 :: b2 :: c2 :: d2 :: rest2 =>
        match hexQuad a2 b2 c2 d2 with
        | none => .error "Invalid \\uXXXX escape"
        | some m =>
          if 0xDC00 ≤ m ∧ m ≤ 0xDFFF then
            scanString (Char.ofNat (0x10000 + (n - 0xD800) * 0x400 + (m - 0xDC00)) :: acc) rest2
          else .error "unpaired surrogate escape outside the modelled fragment"
      | _ => .error "unpaired surrogate escape outside the modelled fragment"
    else if 0xDC00 ≤ n ∧ n ≤ 0xDFFF then
      .error "unpaired surrogate escape outside the modelled fragment"
    else scanString (Char.ofNat n :: acc) rest
| '\\' :: e :: rest =>
  match shortEscape e with
  | some ch => scanString (ch :: acc) rest
  | none => .error "Invalid \\escape"
| c :: rest =>
  if c.toNat < 0x20 then .error "Invalid control character"
  else scanString (c :: acc) rest
| [] => .error "Unterminated string starting at"

/-- Scan an unsigned integer literal (`0|[1-9][0-9]*`).  A following `.`, `e`
or `E` would start a float literal, which the integer-fragment model rejects. -/
def scanUInt : List Char → Except String (Nat × List Char)
| [] => .error "Expecting value"
| c :: r =>
  if c = '0' then
    match r with
    | c2 :: _ =>
      if c2 == '.' || c2 == 'e' || c2 == 'E' then
        .error "float literal outside the modelled integer fragment"
      else .ok (0, r)
    | [] => .ok (0, [])
  else if isDigitCh c then
    let (ds, r2) := readDigits r
    match r2 with
    | c2 :: _ =>
      if c2 == '.' || c2 == 'e' || c2 == 'E' then
        .error "float literal outside the modelled integer fragment"
      else .ok (digitsVal (c :: ds), r2)
    | [] => .ok (digitsVal (c :: ds), [])
  else .error "Expecting value"

/-- Scan an integer literal with its optional leading minus sign. -/
def scanIntTok : List Char → Except String (Int × List Char)
| [] => .error "Expecting value"
| c :: r =>
  if c = '-' then (scanUInt r).map (fun p => (-(p.1 : Int), p.2))
  else (scanUInt (c :: r)).map (fun p => ((p.1 : Int), p.2))

/-- Insert one parsed object member the way a Python `dict` does: an existing
key keeps its position and takes the new value, a new key is appended. -/
def dictInsert (ms : List (String × Json)) (k : String) (v : Json) : List (String × Json) :=
  if ms.any (fun kv => kv.1 = k) then
    ms.map (fun kv => if kv.1 = k then (kv.1, v) else kv)
  else ms ++ [(k, v)]

/-- Fold parsed members into a Python-`dict`-shaped association list
(duplicate keys collapse, last value wins, first position kept). -/
def dictOfPairs (ms : List (String × Json)) : List (String × Json) :=
  ms.foldl (fun acc kv => dictInsert acc kv.1 kv.2) []

mutual
/-- One JSON value.  Expects its first character immediately (callers skip
whitespace); structural on `fuel`. -/
def scanValue : Nat → List Char → Except String (Json × List Char)
| 0, _ => .error "recursion limit exceeded"
| fuel + 1, cs =>
  match cs with
  | 'n' :: 'u' :: 'l' :: 'l' :: r => .ok (Json.null, r)
  | 't' :: 'r' :: 'u' :: 'e' :: r => .ok (Json.bool true, r)
  | 'f' :: 'a' :: 'l' :: 's' :: 'e' :: r => .ok (Json.bool false, r)
  | '"' :: r =>
    match scanString [] r with
    | .ok (s, r2) => .ok (Json.str s, r2)
    | .error e => .error e
  | '[' :: r =>
    match skipSpace r with
    | ']' :: r2 => .ok (Json.arr [], r2)
    | r2 =>
      match scanItems fuel r2 with
      | .ok (xs, r3) => .ok (Json.arr xs, r3)
      | .error e => .error e
  | '{' :: r =>
    match skipSpace r with
    | '}' :: r2 => .ok (Json.obj [], r2)
    | r2 =>
      match scanPairs fuel r2 with
      | .ok (ms, r3) => .ok (Json.obj (dictOfPairs ms), r3)
      | .error e => .error e
  | c :: r =>
    if c == '-' || isDigitCh c then
      match scanIntTok (c :: r) with
      | .ok (n, r2) => .ok (Json.num n, r2)
      | .error e => .error e
    else .error "Expecting value"
  | [] => .error "Expecting value"

/-- One-or-more comma-separated array elements up to the closing bracket.
Expects the first element's first character immediately. -/
def scanItems : Nat → List Char → Except String (List Json × List Char)
| 0, _ => .error "recursion limit exceeded"
| fuel + 1, cs =>
  match scanValue fuel cs with
  | .error e => .error e
  | .ok (v, r) =>
    match skipSpace r with
    | ',' :: r2 =>
      match scanItems fuel (skipSpace r2) with
      | .ok (vs, r3) => .ok (v :: vs, r3)
      | .error e => .error e
    | ']' :: r2 => .ok ([v], r2)
    | _ => .error "Expecting comma delimiter"

/-- One-or-more comma-separated object members up to the closing brace.
Expects the first key's opening quote immediately. -/
def scanPairs : Nat → List Char → Except String (List (String × Json) × List Char)
| 0, _ => .error "recursion limit exceeded"
| fuel + 1, cs =>
  match cs with
  | '"' :: r =>
    match scanString [] r with
    | .error e => .error e
    | .ok (k, r1) =>
      match skipSpace r1 with
      | ':' :: r2 =>
        match scanValue fuel (skipSpace r2) with
        | .error e => .error e
        | .ok (v, r3) =>
          match skipSpace r3 with
          | ',' :: r4 =>
            match scanPairs fuel (skipSpace r4) with
            | .ok (ms, r5) => .ok ((k, v) :: ms, r5)
            | .error e => .error e
          | '}' :: r4 => .ok ([(k, v)], r4)
          | _ => .error "Expecting comma delimiter"
      | _ => .error "Expecting colon delimiter"
  | _ => .error "Expecting property name enclosed in double quotes"
end

/-- The modelled `json.loads`: parse one document, allowing only surrounding
whitespace. -/
def loads (s : String) : Except String Json :=
  match scanValue (s.data.length + 1) (skipSpace s.data) with
  | .error e => .error e
  | .ok (v, r) =>
    match skipSpace r with
    | [] => .ok v
    | _ => .error "Extra data"

/-! ## The modelled `json.dumps` (`ensure_ascii=False`, optional `indent`) -/

/-- Lowercase hexadecimal digit character. -/
def hexDigit (n : Nat) : Char :=
  if n < 10 then Char.ofNat ('0'.toNat + n) else Char.ofNat ('a'.toNat + (n - 10))

/-- Serialize one character of a string: `json.encoder.ESCAPE_DCT` with
`ensure_ascii=False`, so only `"`, `\` and control characters are escaped and
everything else (all non-ASCII included) is emitted verbatim. -/
def escapeChar (c : Char) : List Char :=
  if c = '"' then ['\\', '"']
  else if c = '\\' then ['\\', '\\']
  else if c = '\n' then ['\\', 'n']
  else if c = '\r' then ['\\', 'r']
  else if c = '\t' then ['\\', 't']
  else if c.toNat = 8 then ['\\', 'b']
  else if c.toNat = 12 then ['\\', 'f']
  else if c.toNat < 0x20 then
    ['\\', 'u', '0', '0', hexDigit (c.toNat / 16), hexDigit (c.toNat % 16)]
  else [c]

/-- A serialized string: quote, escaped body, quote. -/
def serString (s : String) : List Char :=
  '"' :: (s.data.flatMap escapeChar ++ ['"'])

/-- Decimal digit characters of `n`, most significant first. -/
def natChars (n : Nat) : List Char :=
  if h : n < 10 then [Char.ofNat ('0'.toNat + n)]
  else natChars (n / 10) ++ [Char.ofNat ('0'.toNat + n % 10)]
decreasing_by exact Nat.div_lt_self (by omega) (by omega)

/-- Decimal characters of an integer (Python `repr` of an `int`). -/
def intChars (i : Int) : List Char :=
  (if i < 0 then ['-'] else []) ++ natChars i.natAbs

def spacesChars (n : Nat) : List Char := List.replicate n ' '

/-- Whitespace emitted after an opening bracket: nothing when compact, a
newline plus the next level's indentation when an `indent` width is given. -/
def openGap (ind : Option Nat) (lvl : Nat) : List Char :=
  match ind with
  | none => []
  | some n => '\n' :: spacesChars (n * (lvl + 1))

/-- Whitespace emitted before a closing bracket. -/
def closeGap (ind : Option Nat) (lvl : Nat) : List Char :=
  match ind with
  | none => []
  | some n => '\n' :: spacesChars (n * lvl)

/-- The separator between two items: `", "` compact, `",\n" ++ indent`
when an `indent` width is given (Python default separators). -/
def itemGap (ind : Option Nat) (lvl : Nat) : List Char :=
  match ind with
  | none => [',', ' ']
  | some n => ',' :: '\n' :: spacesChars (n * (lvl + 1))

mutual
/-- Serialize a value at nesting level `lvl`. -/
def serValue (ind : Option Nat) (lvl : Nat) : Json → List Char
| .null => "null".data
| .bool true => "true".data
| .bool false => "false".data
| .num i => intChars i
| .str s => serString s
| .arr [] => ['[', ']']
| .arr (x :: xs) =>
  '[' :: (openGap ind lvl ++ serValue ind (lvl + 1) x ++ serItemsTail ind lvl xs
    ++ closeGap ind lvl ++ [']'])
| .obj [] => ['{', '}']
| .obj (kv :: kvs) =>
  '{' :: (openGap ind lvl ++ serString kv.1 ++ ':' :: ' ' :: serValue ind (lvl + 1) kv.2
    ++ serPairsTail ind lvl kvs ++ closeGap ind lvl ++ ['}'])

/-- The remaining array items, each preceded by the item separator. -/
def serItemsTail (ind : Option Nat) (lvl : Nat) : List Json → List Char
| [] => []
| x :: xs => itemGap ind lvl ++ serValue ind (lvl + 1) x ++ serItemsTail ind lvl xs

/-- The remaining object members, each preceded by the item separator. -/
def serPairsTail (ind : Option Nat) (lvl : Nat) : List (String × Json) → List Char
| [] => []
| kv :: kvs =>
  itemGap ind lvl ++ serString kv.1 ++ ':' :: ' ' :: serValue ind (lvl + 1) kv.2
    ++ serPairsTail ind lvl kvs
end

/-- The modelled `json.dumps(v, ensure_ascii=False)`, compact when `ind` is
`none`, indented by `ind` spaces per level otherwise. -/
def dumps (v : Json) (ind : Option Nat) : String :=
  String.mk (serValue ind 0 v)

/-! ## Auxiliary measures on `Json` values -/

/-- No string occurs twice in the list (the key lists of Python dicts). -/
def noDupKeys : List String → Bool
| [] => true
| k :: ks => (!ks.contains k) && noDupKeys ks

mutual
/-- A `Json` value is `dict`-shaped when every object's keys are distinct;
exactly the values `json.loads` can produce. -/
def wfJson : Json → Bool
| .null => true
| .bool _ => true
| .num _ => true
| .str _ => true
| .arr xs => wfList xs
| .obj ms => noDupKeys (ms.map Prod.fst) && wfPairs ms

def wfList : List Json → Bool
| [] => true
| x :: xs => wfJson x && wfList xs

def wfPairs : List (String × Json) → Bool
| [] => true
| kv :: ms => wfJson kv.2 && wfPairs ms
end

mutual
/-- Fuel needed by `scanValue` to reparse a serialized value. -/
def cost : Json → Nat
| .null => 1
| .bool _ => 1
| .num _ => 1
| .str _ => 1
| .arr xs => 1 + costItems xs
| .obj ms => 1 + costPairs ms

def costItems : List Json → Nat
| [] => 0
| x :: xs => 1 + cost x + costItems xs

def costPairs : List (String × Json) → Nat
| [] => 0
| kv :: ms => 1 + cost kv.2 + costPairs ms
end

mutual
/-- Occurrences of the character `c` inside the strings of a value (keys and
string scalars) — what "appears verbatim in the output" is measured against. -/
def charCount (c : Char) : Json → Nat
| .null => 0
| .bool _ => 0
| .num _ => 0
| .str s => s.data.count c
| .arr xs => charCountList c xs
| .obj ms => charCountPairs c ms

def charCountList (c : Char) : List Json → Nat
| [] => 0
| x :: xs => charCount c x + charCountList c xs

def charCountPairs (c : Char) : List (String × Json) → Nat
| [] => 0
| kv :: ms => kv.1.data.count c + charCount c kv.2 + charCountPairs c ms
end

/-- The remainder cannot extend an integer literal: empty, or headed by a
character that is neither a digit nor `.`, `e`, `E`.  Every separator the
serializer emits after a number qualifies. -/
def numStop : List Char → Bool
| [] => true
| c :: _ => !(isDigitCh c || c == '.' || c == 'e' || c == 'E')

/-! ## Python exceptions and dynamic operations -/

/-- The exception values the embedded code can raise. -/
inductive PyErr where
| jsonDecodeError (msg : String) : PyErr
| keyError (key : String) : PyErr
| typeError (msg : String) : PyErr
deriving DecidableEq, Repr

/-- Python `str(e)`: a `KeyError` displays as the `repr` of its key. -/
def pyStr : PyErr → String
| .jsonDecodeError m => m
| .keyError k => "\x27" ++ k ++ "\x27"
| .typeError m => m

/-- `json.loads` with its failure as a raisable `JSONDecodeError`. -/
def pyLoads (s : String) : Except PyErr Json :=
  match loads s with
  | .ok v => .ok v
  | .error m => .error (.jsonDecodeError m)

/-- First binding of `k`, as a Python `dict` lookup sees it (the modelled
association lists are `dict`-shaped, so keys are unique). -/
def lookupKey (ms : List (String × Json)) (k : String) : Option Json :=
  match ms.find? (fun kv => kv.1 = k) with
  | some kv => some kv.2
  | none => none

/-- Python subscription `x[k]` with a string key: a `dict` looks the key up
(raising `KeyError` when absent); every other value raises `TypeError`. -/
def Json.index (v : Json) (k : String) : Except PyErr Json :=
  match v with
  | .obj ms =>
    match lookupKey ms k with
    | some x => .ok x
    | none => .error (.keyError k)
  | .str _ => .error (.typeError "string indices must be integers")
  | .arr _ => .error (.typeError "list indices must be integers or slices, not str")
  | .num _ => .error (.typeError "\x27int\x27 object is not subscriptable")
  | .bool _ => .error (.typeError "\x27bool\x27 object is not subscriptable")
  | .null => .error (.typeError "\x27NoneType\x27 object is not subscriptable")

/-- Python `iter(x)` materialized: lists yield elements, dicts their keys,
strings their characters (as 1-character strings); the rest raise `TypeError`. -/
def pyIter : Json → Except PyErr (List Json)
| .arr xs => .ok xs
| .obj ms => .ok (ms.map (fun kv => .str kv.1))
| .str s => .ok (s.data.map (fun c => .str (String.mk [c])))
| .num _ => .error (.typeError "\x27int\x27 object is not iterable")
| .bool _ => .error (.typeError "\x27bool\x27 object is not iterable")
| .null => .error (.typeError "\x27NoneType\x27 object is not iterable")

/-- The `segment["transcript"]` lookups of the generator, in order, as
`str.join`'s `PySequence_Fast` materializes them before any type check. -/
def gatherLookups : List Json → Except PyErr (List Json)
| [] => .ok []
| seg :: rest => do
  let t ← seg.index "transcript"
  let ts ← gatherLookups rest
  pure (t :: ts)

/-- `str.join`'s per-item check: every joined item must already be a `str`. -/
def joinCheck : List Json → Except PyErr (List String)
| [] => .ok []
| .str s :: rest => do
  let ss ← joinCheck rest
  pure (s :: ss)
| _ :: _ => .error (.typeError "sequence item: expected str instance")

/-! ## The four operations of `json_convert.py` -/

/-- The `try` body of `json_to_text`: parse, then re-serialize with
`indent=4, ensure_ascii=False`. -/
def json_to_text_body (json_data : String) : Except PyErr String := do
  let parsed_data ← pyLoads json_data
  pure (dumps parsed_data (some 4))

/-- `json_to_text` (the spec's `format_json`): its `except` clause catches
exactly `json.JSONDecodeError`; any other exception would escape. -/
def json_to_text (json_data : String) : Except PyErr String :=
  match json_to_text_body json_data with
  | .ok t => .ok t
  | .error (.jsonDecodeError m) => .ok ("Invalid JSON data: " ++ m)
  | .error e => .error e

/-- The `try` body of `extract_full_transcript`:
`" ".join(segment["transcript"] for segment in data["segments"])`. -/
def extract_body (json_data : String) : Except PyErr String := do
  let data ← pyLoads json_data
  let segs ← data.index "segments"
  let segments ← pyIter segs
  let items ← gatherLookups segments
  let pieces ← joinCheck items
  pure (String.intercalate " " pieces)

/-- `extract_full_transcript` (the spec's `extract_transcript`): its `except`
clause catches `(json.JSONDecodeError, KeyError)`; a `TypeError` escapes. -/
def extract_full_transcript (json_data : String) : Except PyErr String :=
  match extract_body json_data with
  | .ok t => .ok t
  | .error (.jsonDecodeError m) =>
    .ok ("Error extracting transcript: " ++ pyStr (.jsonDecodeError m))
  | .error (.keyError k) => .ok ("Error extracting transcript: " ++ pyStr (.keyError k))
  | .error e => .error e

/-- An HTTP response as `requests` reports it. -/
structure HttpResponse where
  statusCode : Nat
  reason : String
  text : String
deriving DecidableEq, Repr

/-- The outcome of `requests.get`: a response, or a transport-level
`RequestException` (connection failure, timeout, ...). -/
inductive HttpResult where
| response (r : HttpResponse) : HttpResult
| connectionError (msg : String) : HttpResult
deriving DecidableEq, Repr

/-- Python truthiness of the optional token: `None` and `""` are falsy. -/
def pyTruthy : Option String → Bool
| none => false
| some s => s ≠ ""

/-- The `headers` dict `load_from_localhost` builds: `Authorization` is added
under `if token:`, so only for a truthy token. -/
def requestHeaders (token : Option String) : List (String × String) :=
  if pyTruthy token then [("Authorization", "Bearer " ++ token.getD "")] else []

/-- `str(e)` of the `HTTPError` that `raise_for_status` raises. -/
def statusErrorMsg (r : HttpResponse) (url : String) : String :=
  (if r.statusCode < 500 then toString r.statusCode ++ " Client Error: "
   else toString r.statusCode ++ " Server Error: ")
    ++ r.reason ++ " for url: " ++ url

/-- `load_from_localhost` (the spec's `fetch`), over an HTTP oracle `get`
standing for `requests.get`.  `raise_for_status` raises for 4XX/5XX, and the
`except requests.exceptions.RequestException` clause catches both that and
transport failures, returning the sentinel string. -/
def load_from_localhost (get : String → List (String × String) → HttpResult)
    (url : String) (token : Option String) : String :=
  let headers := requestHeaders token
  match get url headers with
  | .connectionError m => "Error fetching data: " ++ m
  | .response r =>
    if 400 ≤ r.statusCode ∧ r.statusCode < 600 then
      "Error fetching data: " ++ statusErrorMsg r url
    else r.text

/-! ## Filesystem model and `save_transcript_to_file` -/

/-- UTF-8 bytes of one scalar value (standard 1-4 byte encoding). -/
def utf8Char (c : Char) : List Nat :=
  let n := c.toNat
  if n < 0x80 then [n]
  else if n < 0x800 then [0xC0 + n / 64, 0x80 + n % 64]
  else if n < 0x10000 then [0xE0 + n / 4096, 0x80 + n / 64 % 64, 0x80 + n % 64]
  else [0xF0 + n / 262144, 0x80 + n / 4096 % 64, 0x80 + n / 64 % 64, 0x80 + n % 64]

/-- A string's UTF-8 encoding, as `open(..., encoding='utf-8')` writes it. -/
def utf8Bytes (s : String) : List Nat := s.data.flatMap utf8Char

/-- The filesystem a `save_transcript_to_file` call sees and updates. -/
structure FileSystem where
  dirs : List String
  files : List (String × List Nat)
deriving DecidableEq, Repr

/-- `os.path.dirname` (POSIX): the input up to its last slash, with trailing
slashes stripped unless the head is all slashes. -/
def dirnameChars (cs : List Char) : List Char :=
  let head := (cs.reverse.dropWhile (fun c => c ≠ '/')).reverse
  if head ≠ [] ∧ ¬ head.all (fun c => c = '/') then
    (head.reverse.dropWhile (fun c => c = '/')).reverse
  else head

def dirname (p : String) : String := String.mk (dirnameChars p.data)

/-- The directory and its ancestors that `os.makedirs` ensures exist
(fuel-bounded walk up `dirname`, which strictly shortens real paths). -/
def dirChain : Nat → String → List String
| 0, _ => []
| fuel + 1, p =>
  if p = "" then []
  else
    p :: (let d := dirname p; if d = p then [] else dirChain fuel d)

/-- `os.makedirs(path, exist_ok=True)`: the empty path raises
`FileNotFoundError` (it bottoms out in `os.mkdir('')`); otherwise the path and
its ancestors come to exist.  Environmental failures (permissions, conflicting
files) are outside the embedding. -/
def makedirs (fs : FileSystem) (path : String) : Except String FileSystem :=
  if path = "" then
    .error "[Errno 2] No such file or directory: \x27\x27"
  else .ok ⟨dirChain (path.length + 1) path ++ fs.dirs, fs.files⟩

/-- Replace or add one file binding. -/
def putFile (files : List (String × List Nat)) (path : String) (bytes : List Nat) :
    List (String × List Nat) :=
  if files.any (fun f => f.1 = path) then
    files.map (fun f => if f.1 = path then (f.1, bytes) else f)
  else files ++ [(path, bytes)]

def lookupFile (files : List (String × List Nat)) (path : String) : Option (List Nat) :=
  match files.find? (fun f => f.1 = path) with
  | some f => some f.2
  | none => none

/-- `save_transcript_to_file` (the spec's `write_file`): ensure the parent
directory exists, write the UTF-8 bytes (truncating mode `'w'` overwrites),
return `True`; `except Exception` catches any failure, prints a diagnostic and
returns `False`.  Result: (filesystem after, return value, printed lines). -/
def save_transcript_to_file (fs : FileSystem) (transcript : String) (file_path : String) :
    FileSystem × Bool × List String :=
  match makedirs fs (dirname file_path) with
  | .error e => (fs, false, ["Error saving transcript: " ++ e])
  | .ok fs1 => (⟨fs1.dirs, putFile fs1.files file_path (utf8Bytes transcript)⟩, true, [])

/-! # Theorems

## Lexical lemmas for the codec round-trip -/

theorem skipSpace_ws_cons (c : Char) (cs : List Char) (h : isJsonWs c = true) :
    skipSpace (c :: cs) = skipSpace cs := by
  simp [skipSpace, h]

theorem skipSpace_not_ws (c : Char) (cs : List Char) (h : isJsonWs c = false) :
    skipSpace (c :: cs) = c :: cs := by
  simp [skipSpace, h]

theorem skipSpace_spaces (n : Nat) (cs : List Char) :
    skipSpace (spacesChars n ++ cs) = skipSpace cs := by
  induction n with
  | zero => simp [spacesChars]
  | succ m ih =>
    simpa [spacesChars, List.replicate_succ, skipSpace, isJsonWs] using ih

theorem skipSpace_openGap (ind : Option Nat) (lvl : Nat) (cs : List Char) :
    skipSpace (openGap ind lvl ++ cs) = skipSpace cs := by
  cases ind with
  | none => simp [openGap]
  | some n => simpa [openGap, skipSpace, isJsonWs] using skipSpace_spaces (n * (lvl + 1)) cs

theorem skipSpace_closeGap (ind : Option Nat) (lvl : Nat) (cs : List Char) :
    skipSpace (closeGap ind lvl ++ cs) = skipSpace cs := by
  cases ind with
  | none => simp [closeGap]
  | some n => simpa [closeGap, skipSpace, isJsonWs] using skipSpace_spaces (n * lvl) cs

theorem digitChar_spec (n : Nat) (h : n < 10) :
    isDigitCh (Char.ofNat ('0'.toNat + n)) = true
      ∧ (Char.ofNat ('0'.toNat + n)).toNat - '0'.toNat = n
      ∧ (Char.ofNat ('0'.toNat + n)) ≠ '.' ∧ (Char.ofNat ('0'.toNat + n)) ≠ 'e'
      ∧ (Char.ofNat ('0'.toNat + n)) ≠ 'E'
      ∧ (1 ≤ n → (Char.ofNat ('0'.toNat + n)) ≠ '0') := by
  revert h
  revert n
  decide

theorem natChars_lt (n : Nat) (h : n < 10) :
    natChars n = [Char.ofNat ('0'.toNat + n)] := by
  rw [natChars]
  simp [h]

theorem natChars_ge (n : Nat) (h : ¬ n < 10) :
    natChars n = natChars (n / 10) ++ [Char.ofNat ('0'.toNat + n % 10)] := by
  conv_lhs => rw [natChars]
  simp [h]

theorem natChars_all_digit (n : Nat) : ∀ c ∈ natChars n, isDigitCh c = true := by
  induction n using Nat.strong_induction_on with
  | _ n ih =>
    by_cases h : n < 10
    · rw [natChars_lt n h]
      intro c hc
      rw [List.mem_singleton] at hc
      subst hc
      exact (digitChar_spec n h).1
    · rw [natChars_ge n h]
      intro c hc
      rw [List.mem_append] at hc
      cases hc with
      | inl hm => exact ih (n / 10) (Nat.div_lt_self (by omega) (by omega)) c hm
      | inr hm =>
        rw [List.mem_singleton] at hm
        subst hm
        exact (digitChar_spec (n % 10) (Nat.mod_lt _ (by omega))).1

theorem natChars_head_pos (n : Nat) (h : 1 ≤ n) :
    ∃ c t, natChars n = c :: t ∧ isDigitCh c = true ∧ c ≠ '0' := by
  induction n using Nat.strong_induction_on with
  | _ n ih =>
    by_cases h10 : n < 10
    · rw [natChars_lt n h10]
      exact ⟨_, _, rfl, (digitChar_spec n h10).1, (digitChar_spec n h10).2.2.2.2.2 h⟩
    · obtain ⟨c, t, hct, hd, hz⟩ :=
        ih (n / 10) (Nat.div_lt_self (by omega) (by omega)) (by omega)
      rw [natChars_ge n h10, hct]
      exact ⟨c, t ++ [Char.ofNat ('0'.toNat + n % 10)], by simp, hd, hz⟩

theorem digitsVal_append_one (ds : List Char) (c : Char) :
    digitsVal (ds ++ [c]) = digitsVal ds * 10 + (c.toNat - '0'.toNat) := by
  simp [digitsVal, List.foldl_append]

theorem digitsVal_natChars (n : Nat) : digitsVal (natChars n) = n := by
  induction n using Nat.strong_induction_on with
  | _ n ih =>
    by_cases h : n < 10
    · rw [natChars_lt n h]
      have h2 := (digitChar_spec n h).2.1
      simp only [digitsVal, List.foldl_cons, List.foldl_nil]
      omega
    · rw [natChars_ge n h, digitsVal_append_one,
        ih (n / 10) (Nat.div_lt_self (by omega) (by omega)),
        (digitChar_spec (n % 10) (Nat.mod_lt _ (by omega))).2.1]
      omega

theorem readDigits_not_digit (cs : List Char)
    (h : numStop cs = true ∨ ∃ c t, cs = c :: t ∧ isDigitCh c = false) :
    readDigits cs = ([], cs) := by
  match cs with
  | [] => rfl
  | c :: t =>
    have hc : isDigitCh c = false := by
      rcases h with h | ⟨c', t', he, hc'⟩
      · simp only [numStop, Bool.not_eq_true', Bool.or_eq_false_iff] at h
        exact h.1.1.1
      · cases he
        exact hc'
    simp [readDigits, hc]

theorem readDigits_run (ds : List Char) (hds : ∀ c ∈ ds, isDigitCh c = true)
    (rest : List Char) (hrest : readDigits rest = ([], rest)) :
    readDigits (ds ++ rest) = (ds, rest) := by
  induction ds with
  | nil => simpa using hrest
  | cons c t ih =>
    have hc : isDigitCh c = true := hds c (by simp)
    have ht := ih (fun x hx => hds x (by simp [hx]))
    simp [readDigits, hc, ht]

theorem numStop_head (c : Char) (t : List Char) (h : numStop (c :: t) = true) :
    isDigitCh c = false ∧ c ≠ '.' ∧ c ≠ 'e' ∧ c ≠ 'E' := by
  simp only [numStop, Bool.not_eq_true', Bool.or_eq_false_iff, beq_eq_false_iff_ne] at h
  exact ⟨h.1.1.1, h.1.1.2, h.1.2, h.2⟩

/-- `scanUInt` inverts `natChars` whenever the remainder cannot extend the
literal. -/
theorem scanUInt_natChars (n : Nat) (rest : List Char) (hr : numStop rest = true) :
    scanUInt (natChars n ++ rest) = .ok (n, rest) := by
  have hstop : readDigits rest = ([], rest) := readDigits_not_digit rest (Or.inl hr)
  by_cases hn : n = 0
  · subst hn
    have h0 : natChars 0 ++ rest = '0' :: rest := by
      rw [natChars_lt 0 (by omega)]
      rfl
    rw [h0]
    match rest with
    | [] => rfl
    | c :: t =>
      obtain ⟨_, hdot, he, hE⟩ := numStop_head c t hr
      simp [scanUInt, hdot, he, hE]
  · obtain ⟨c, t, hct, hd, hz⟩ := natChars_head_pos n (by omega)
    have hrun : readDigits (t ++ rest) = (t, rest) := by
      refine readDigits_run t ?_ rest hstop
      intro x hx
      exact natChars_all_digit n x (by rw [hct]; simp [hx])
    have hdv : digitsVal (c :: t) = n := by
      have := digitsVal_natChars n
      rwa [hct] at this
    have harg : natChars n ++ rest = c :: (t ++ rest) := by
      rw [hct]
      rfl
    rw [harg]
    simp only [scanUInt, if_neg hz, if_pos hd, hrun]
    match hre : rest with
    | [] => simp [hdv]
    | c2 :: t2 =>
      obtain ⟨_, hdot, he, hE⟩ := numStop_head c2 t2 (hre ▸ hr)
      simp [hdot, he, hE, hdv]

/-- `scanIntTok` inverts `intChars` whenever the remainder cannot extend the
literal. -/
theorem scanIntTok_intChars (i : Int) (rest : List Char) (hr : numStop rest = true) :
    scanIntTok (intChars i ++ rest) = .ok (i, rest) := by
  by_cases hneg : i < 0
  · have harg : intChars i ++ rest = '-' :: (natChars i.natAbs ++ rest) := by
      simp [intChars, hneg]
    rw [harg]
    have hu := scanUInt_natChars i.natAbs rest hr
    have hv : -((i.natAbs : Nat) : Int) = i := by omega
    simp [scanIntTok, Except.map, hu, hv]
    rw [abs_of_nonpos (by omega : i ≤ 0)]
    exact neg_neg i
  · obtain ⟨c, t, hct, hd, _⟩ :
        ∃ c t, natChars i.natAbs = c :: t ∧ isDigitCh c = true ∧ True := by
      by_cases h0 : i.natAbs = 0
      · rw [h0, natChars_lt 0 (by omega)]
        exact ⟨_, _, rfl, by decide, trivial⟩
      · obtain ⟨c, t, hct, hd, _⟩ := natChars_head_pos i.natAbs (by omega)
        exact ⟨c, t, hct, hd, trivial⟩
    have hcm : c ≠ '-' := by
      intro he
      subst he
      exact absurd hd (by decide)
    have harg : intChars i ++ rest = c :: (t ++ rest) := by
      simp [intChars, hneg, hct]
    have hu := scanUInt_natChars i.natAbs rest hr
    rw [hct] at hu
    simp only [List.cons_append] at hu
    rw [harg]
    have hv : ((i.natAbs : Nat) : Int) = i := by omega
    simp only [scanIntTok, if_neg hcm, List.cons_append]
    have hnn : (0 : Int) ≤ i := le_of_not_lt hneg
    simp [Except.map, hu, hv, abs_of_nonneg hnn]

theorem hexCharVal_hexDigit (k : Nat) (h : k < 16) : hexCharVal (hexDigit k) = some k := by
  revert h
  revert k
  decide

set_option maxHeartbeats 1600000 in
/-- Scanning one escaped character undoes `escapeChar`. -/
theorem scanString_escape (c : Char) (acc rest : List Char) :
    scanString acc (escapeChar c ++ rest) = scanString (c :: acc) rest := by
  by_cases h1 : c = '"'
  · subst h1
    rfl
  by_cases h2 : c = '\\'
  · subst h2
    rfl
  by_cases h3 : c = '\n'
  · subst h3
    rfl
  by_cases h4 : c = '\x0d'
  · subst h4
    rfl
  by_cases h5 : c = '\t'
  · subst h5
    rfl
  by_cases h8 : c.toNat = 8
  · have hc : c = Char.ofNat 8 := by
      rw [← h8, Char.ofNat_toNat]
    simp only [escapeChar, if_neg h1, if_neg h2, if_neg h3, if_neg h4, if_neg h5, if_pos h8]
    rw [hc]
    rfl
  by_cases h12 : c.toNat = 12
  · have hc : c = Char.ofNat 12 := by
      rw [← h12, Char.ofNat_toNat]
    simp only [escapeChar, if_neg h1, if_neg h2, if_neg h3, if_neg h4, if_neg h5,
      if_neg h8, if_pos h12]
    rw [hc]
    rfl
  by_cases hlt : c.toNat < 32
  · simp only [escapeChar, if_neg h1, if_neg h2, if_neg h3, if_neg h4, if_neg h5,
      if_neg h8, if_neg h12, if_pos hlt, List.cons_append]
    rw [scanString.eq_def]
    have hv0 : hexCharVal '0' = some 0 := by decide
    have hv1 : hexCharVal (hexDigit (c.toNat / 16)) = some (c.toNat / 16) :=
      hexCharVal_hexDigit _ (by omega)
    have hv2 : hexCharVal (hexDigit (c.toNat % 16)) = some (c.toNat % 16) :=
      hexCharVal_hexDigit _ (by omega)
    have hq : hexQuad '0' '0' (hexDigit (c.toNat / 16)) (hexDigit (c.toNat % 16))
        = some c.toNat := by
      simp only [hexQuad, hv0, hv1, hv2, Option.bind_eq_bind, Option.some_bind]
      have h2 : ((0 * 16 + 0) * 16 + c.toNat / 16) * 16 + c.toNat % 16 = c.toNat := by
        omega
      simpa using h2
    simp only [hq]
    have hns1 : ¬ (0xD800 ≤ c.toNat ∧ c.toNat ≤ 0xDBFF) := by omega
    have hns2 : ¬ (0xDC00 ≤ c.toNat ∧ c.toNat ≤ 0xDFFF) := by omega
    simp [hns1, hns2, Char.ofNat_toNat]
  · simp only [escapeChar, if_neg h1, if_neg h2, if_neg h3, if_neg h4, if_neg h5,
      if_neg h8, if_neg h12, if_neg hlt, List.cons_append, List.nil_append]
    rw [scanString.eq_def]
    simp [h1, h2, hlt]

/-- Scanning an escaped run stops exactly at the closing quote. -/
theorem scanString_flat (cs : List Char) : ∀ (acc rest : List Char),
    scanString acc (cs.flatMap escapeChar ++ '"' :: rest)
      = .ok (String.mk (acc.reverse ++ cs), rest) := by
  induction cs with
  | nil =>
    intro acc rest
    simp [scanString]
  | cons c cs ih =>
    intro acc rest
    rw [List.flatMap_cons, List.append_assoc, scanString_escape, ih]
    simp

/-- The string codec round-trip: scanning a serialized string body recovers
the string. -/
theorem scanString_ser (s : String) (rest : List Char) :
    scanString [] (s.data.flatMap escapeChar ++ '"' :: rest) = .ok (s, rest) := by
  rw [scanString_flat]
  rfl

theorem digit_not_special (c : Char) (h : isDigitCh c = true) :
    isJsonWs c = false ∧ c ≠ ']' ∧ c ≠ '}' ∧ c ≠ ',' ∧ c ≠ '-' ∧ c ≠ 'n' ∧ c ≠ 't'
      ∧ c ≠ 'f' ∧ c ≠ '"' ∧ c ≠ '[' ∧ c ≠ '{' := by
  simp only [isDigitCh, Bool.and_eq_true, decide_eq_true_eq] at h
  refine ⟨?_, ?_, ?_, ?_, ?_, ?_, ?_, ?_, ?_, ?_, ?_⟩
  · simp only [isJsonWs, Bool.or_eq_false_iff, beq_eq_false_iff_ne]
    refine ⟨⟨⟨?_, ?_⟩, ?_⟩, ?_⟩ <;>
      · intro he
        subst he
        revert h
        decide
  all_goals (intro he; subst he; revert h; decide)

/-- Every serialized value begins with a non-whitespace character that closes
nothing and separates nothing. -/
theorem serValue_head (v : Json) (ind : Option Nat) (lvl : Nat) :
    ∃ c t, serValue ind lvl v = c :: t ∧ isJsonWs c = false ∧ c ≠ ']' ∧ c ≠ '}' := by
  cases v with
  | null =>
    refine ⟨'n', _, rfl, ?_, ?_, ?_⟩ <;> decide
  | bool b =>
    cases b
    · refine ⟨'f', _, rfl, ?_, ?_, ?_⟩ <;> decide
    · refine ⟨'t', _, rfl, ?_, ?_, ?_⟩ <;> decide
  | str s =>
    refine ⟨'"', _, rfl, ?_, ?_, ?_⟩ <;> decide
  | arr xs =>
    cases xs
    · refine ⟨'[', _, rfl, ?_, ?_, ?_⟩ <;> decide
    · refine ⟨'[', _, rfl, ?_, ?_, ?_⟩ <;> decide
  | obj ms =>
    cases ms
    · refine ⟨'{', _, rfl, ?_, ?_, ?_⟩ <;> decide
    · refine ⟨'{', _, rfl, ?_, ?_, ?_⟩ <;> decide
  | num i =>
    by_cases hneg : i < 0
    · refine ⟨'-', natChars i.natAbs, ?_, by decide, by decide, by decide⟩
      simp [serValue, intChars, hneg]
    · by_cases h0 : i.natAbs = 0
      · refine ⟨'0', [], ?_, by decide, by decide, by decide⟩
        simp only [serValue, intChars, if_neg hneg, h0, List.nil_append]
        rw [natChars_lt 0 (by omega)]
        rfl
      · obtain ⟨c, t, hct, hd, _⟩ := natChars_head_pos i.natAbs (by omega)
        obtain ⟨hws, hbr, hbc, _⟩ := digit_not_special c hd
        refine ⟨c, t, ?_, hws, hbr, hbc⟩
        simp [serValue, intChars, hneg, hct]

theorem skipSpace_serValue (v : Json) (ind : Option Nat) (lvl : Nat) (x : List Char) :
    skipSpace (serValue ind lvl v ++ x) = serValue ind lvl v ++ x := by
  obtain ⟨c, t, hct, hws, _, _⟩ := serValue_head v ind lvl
  rw [hct, List.cons_append]
  exact skipSpace_not_ws c (t ++ x) hws

theorem dictInsert_fresh (acc : List (String × Json)) (kv : String × Json)
    (h : ∀ a ∈ acc, a.1 ≠ kv.1) : dictInsert acc kv.1 kv.2 = acc ++ [kv] := by
  have hany : acc.any (fun a => a.1 = kv.1) = false := by
    rw [List.any_eq_false]
    intro a ha
    simpa using h a ha
  simp [dictInsert, hany]

theorem foldl_dictInsert_fresh (ms : List (String × Json)) :
    ∀ acc : List (String × Json), (∀ kv ∈ ms, ∀ a ∈ acc, a.1 ≠ kv.1) →
      noDupKeys (ms.map Prod.fst) = true →
      ms.foldl (fun acc kv => dictInsert acc kv.1 kv.2) acc = acc ++ ms := by
  induction ms with
  | nil =>
    intro acc _ _
    simp
  | cons kv ms ih =>
    intro acc hfresh hnd
    simp only [List.map_cons, noDupKeys, Bool.and_eq_true, Bool.not_eq_true'] at hnd
    rw [List.foldl_cons, dictInsert_fresh acc kv (hfresh kv (by simp))]
    rw [ih (acc ++ [kv]) ?_ hnd.2]
    · simp
    · intro kv' hkv' a ha
      rw [List.mem_append] at ha
      cases ha with
      | inl hin => exact hfresh kv' (by simp [hkv']) a hin
      | inr hin =>
        rw [List.mem_singleton] at hin
        intro he
        rw [hin] at he
        have hc2 : (ms.map Prod.fst).contains kv.1 = true := by
          rw [List.contains_eq_any_beq, List.any_eq_true]
          exact ⟨kv'.1, List.mem_map_of_mem Prod.fst hkv', by simp [he]⟩
        rw [hc2] at hnd
        exact absurd hnd.1 (by decide)

/-- Member lists with distinct keys pass through the `dict` fold unchanged. -/
theorem dictOfPairs_self (ms : List (String × Json))
    (h : noDupKeys (ms.map Prod.fst) = true) : dictOfPairs ms = ms := by
  have := foldl_dictInsert_fresh ms [] (by intro kv _ a ha; cases ha) h
  simpa [dictOfPairs] using this

mutual
theorem cost_le_serValue : ∀ (v : Json) (ind : Option Nat) (lvl : Nat),
    cost v ≤ (serValue ind lvl v).length + 1
| .null, _, _ => by simp [cost, serValue]
| .bool b, _, _ => by cases b <;> simp [cost, serValue]
| .num _, _, _ => by simp [cost, serValue]
| .str _, _, _ => by simp [cost, serValue]
| .arr [], _, _ => by simp [cost, costItems, serValue]
| .arr (x :: xs), ind, lvl => by
  have h1 := cost_le_serValue x ind (lvl + 1)
  have h2 := costItems_le_serTail xs ind lvl
  simp only [cost, costItems, serValue, List.length_cons, List.length_append]
  omega
| .obj [], _, _ => by simp [cost, costPairs, serValue]
| .obj ((k, v) :: ms), ind, lvl => by
  have h1 := cost_le_serValue v ind (lvl + 1)
  have h2 := costPairs_le_serTail ms ind lvl
  simp only [cost, costPairs, serValue, List.length_cons, List.length_append]
  omega
termination_by v _ _ => sizeOf v

theorem costItems_le_serTail : ∀ (xs : List Json) (ind : Option Nat) (lvl : Nat),
    costItems xs ≤ (serItemsTail ind lvl xs).length
| [], _, _ => by simp [costItems, serItemsTail]
| x :: xs, ind, lvl => by
  have h1 := cost_le_serValue x ind (lvl + 1)
  have h2 := costItems_le_serTail xs ind lvl
  have h3 : 2 ≤ (itemGap ind lvl).length := by
    cases ind <;> simp [itemGap]
  simp only [costItems, serItemsTail, List.length_append]
  omega
termination_by xs _ _ => sizeOf xs

theorem costPairs_le_serTail : ∀ (ms : List (String × Json)) (ind : Option Nat) (lvl : Nat),
    costPairs ms ≤ (serPairsTail ind lvl ms).length
| [], _, _ => by simp [costPairs, serPairsTail]
| (k, v) :: ms, ind, lvl => by
  have h1 := cost_le_serValue v ind (lvl + 1)
  have h2 := costPairs_le_serTail ms ind lvl
  have h3 : 2 ≤ (itemGap ind lvl).length := by
    cases ind <;> simp [itemGap]
  simp only [costPairs, serPairsTail, List.length_append, List.length_cons]
  omega
termination_by ms _ _ => sizeOf ms
end

theorem numStop_of_head (c : Char) (t : List Char)
    (h : (isDigitCh c || c == '.' || c == 'e' || c == 'E') = false) :
    numStop (c :: t) = true := by
  simp only [numStop, h]
  rfl

theorem numStop_closeGap (ind : Option Nat) (lvl : Nat) (c : Char) (rest : List Char)
    (h : (isDigitCh c || c == '.' || c == 'e' || c == 'E') = false) :
    numStop (closeGap ind lvl ++ c :: rest) = true := by
  cases ind with
  | none => simpa [closeGap] using numStop_of_head c rest h
  | some n =>
    cases lvl with
    | zero => simp [closeGap, spacesChars]; rfl
    | succ m =>
      simp only [closeGap]
      rfl

theorem numStop_itemGap (ind : Option Nat) (lvl : Nat) (rest : List Char) :
    numStop (itemGap ind lvl ++ rest) = true := by
  cases ind <;> rfl

theorem skipSpace_closeGap_cons (ind : Option Nat) (lvl : Nat) (c : Char) (rest : List Char)
    (h : isJsonWs c = false) :
    skipSpace (closeGap ind lvl ++ c :: rest) = c :: rest := by
  rw [skipSpace_closeGap]
  exact skipSpace_not_ws c rest h

/-- The parser falls through to the number branch when the head can only start
a number. -/
theorem scanValue_num_branch (f : Nat) (c : Char) (t : List Char)
    (hn : c ≠ 'n') (ht : c ≠ 't') (hf : c ≠ 'f') (hq : c ≠ '"') (hlb : c ≠ '[')
    (hob : c ≠ '{') (hg : (c == '-' || isDigitCh c) = true) :
    scanValue (f + 1) (c :: t)
      = (match scanIntTok (c :: t) with
         | .ok (n, r2) => .ok (.num n, r2)
         | .error e => .error e) := by
  rw [scanValue.eq_def]
  simp only []
  split
  · rename_i heq
    injection heq with h1 _
    exact absurd h1 hn
  · rename_i heq
    injection heq with h1 _
    exact absurd h1 ht
  · rename_i heq
    injection heq with h1 _
    exact absurd h1 hf
  · rename_i heq
    injection heq with h1 _
    exact absurd h1 hq
  · rename_i heq
    injection heq with h1 _
    exact absurd h1 hlb
  · rename_i heq
    injection heq with h1 _
    exact absurd h1 hob
  · rename_i c' r' heq
    injection heq with h1 h2
    subst h1
    subst h2
    simp [hg]
  · rename_i heq
    cases heq

/-- The parser's array branch reduces to `scanItems` when the element list is
nonempty (its first character is not `]`). -/
theorem scanValue_arr_branch (f : Nat) (R : List Char) (c : Char) (t : List Char)
    (hskip : skipSpace R = c :: t) (hc : c ≠ ']') :
    scanValue (f + 1) ('[' :: R)
      = (match scanItems f (c :: t) with
         | .ok (xs, r3) => .ok (.arr xs, r3)
         | .error e => .error e) := by
  rw [scanValue.eq_def]
  simp only [hskip]
  split
  · rename_i heq
    injection heq with h1 _
    exact absurd h1 hc
  · rfl

/-- The parser's object branch reduces to `scanPairs` when the member list is
nonempty (its first character is a key's quote, not `}`). -/
theorem scanValue_obj_branch (f : Nat) (R : List Char) (c : Char) (t : List Char)
    (hskip : skipSpace R = c :: t) (hc : c ≠ '}') :
    scanValue (f + 1) ('{' :: R)
      = (match scanPairs f (c :: t) with
         | .ok (ms, r3) => .ok (.obj (dictOfPairs ms), r3)
         | .error e => .error e) := by
  rw [scanValue.eq_def]
  simp only [hskip]
  split
  · rename_i heq
    injection heq with h1 _
    exact absurd h1 hc
  · rfl

theorem itemGap_skip (ind : Option Nat) (lvl : Nat) (X : List Char) :
    ∃ g, itemGap ind lvl = ',' :: g ∧ skipSpace (g ++ X) = skipSpace X := by
  cases ind with
  | none =>
    refine ⟨[' '], rfl, ?_⟩
    exact skipSpace_ws_cons ' ' X (by decide)
  | some n =>
    refine ⟨'\n' :: spacesChars (n * (lvl + 1)), rfl, ?_⟩
    rw [List.cons_append, skipSpace_ws_cons '\n' _ (by decide)]
    exact skipSpace_spaces _ X

mutual
theorem scanValue_ser : ∀ (v : Json) (ind : Option Nat) (lvl fuel : Nat) (rest : List Char),
    cost v ≤ fuel → numStop rest = true → wfJson v = true →
    scanValue fuel (serValue ind lvl v ++ rest) = .ok (v, rest)
| .null, ind, lvl, fuel, rest, hc, _, _ => by
  cases fuel with
  | zero => simp [cost] at hc
  | succ f => rfl
| .bool b, ind, lvl, fuel, rest, hc, _, _ => by
  cases fuel with
  | zero => simp [cost] at hc
  | succ f => cases b <;> rfl
| .num i, ind, lvl, fuel, rest, hc, hr, _ => by
  cases fuel with
  | zero => simp [cost] at hc
  | succ f =>
    have hit := scanIntTok_intChars i rest hr
    by_cases hneg : i < 0
    · have harg : serValue ind lvl (.num i) ++ rest = '-' :: (natChars i.natAbs ++ rest) := by
        simp [serValue, intChars, hneg]
      have harg2 : intChars i ++ rest = '-' :: (natChars i.natAbs ++ rest) := by
        simp [intChars, hneg]
      rw [harg, scanValue_num_branch f '-' _ (by decide) (by decide) (by decide) (by decide)
        (by decide) (by decide) (by decide), ← harg2, hit]
    · obtain ⟨c, t, hct, hd⟩ : ∃ c t, natChars i.natAbs = c :: t ∧ isDigitCh c = true := by
        by_cases h0 : i.natAbs < 10
        · rw [natChars_lt _ h0]
          exact ⟨_, _, rfl, (digitChar_spec _ h0).1⟩
        · rw [natChars_ge _ h0]
          obtain ⟨c, t, hct, hd, _⟩ := natChars_head_pos (i.natAbs / 10) (by omega)
          rw [hct]
          exact ⟨c, _, rfl, hd⟩
      obtain ⟨_, _, _, _, _, hcn, hctt, hcf, hcq, hclb, hcob⟩ := digit_not_special c hd
      have harg : serValue ind lvl (.num i) ++ rest = c :: (t ++ rest) := by
        simp [serValue, intChars, hneg, hct]
      have harg2 : intChars i ++ rest = c :: (t ++ rest) := by
        simp [intChars, hneg, hct]
      rw [harg, scanValue_num_branch f c _ hcn hctt hcf hcq hclb hcob (by simp [hd]),
        ← harg2, hit]
| .str s, ind, lvl, fuel, rest, hc, _, _ => by
  cases fuel with
  | zero => simp [cost] at hc
  | succ f =>
    have harg : serValue ind lvl (.str s) ++ rest
        = '"' :: (s.data.flatMap escapeChar ++ ('"' :: rest)) := by
      simp [serValue, serString]
    rw [harg, scanValue.eq_def]
    simp [scanString_ser s rest]
| .arr [], ind, lvl, fuel, rest, hc, _, _ => by
  cases fuel with
  | zero => simp [cost] at hc
  | succ f => rfl
| .arr (x :: xs), ind, lvl, fuel, rest, hc, _, hw => by
  cases fuel with
  | zero => simp [cost, costItems] at hc
  | succ f =>
    have harg : serValue ind lvl (.arr (x :: xs)) ++ rest
        = '[' :: (openGap ind lvl ++ (serValue ind (lvl + 1) x
            ++ (serItemsTail ind lvl xs ++ (closeGap ind lvl ++ (']' :: rest))))) := by
      simp [serValue]
    obtain ⟨c, t, hct, hws, hbr, _⟩ := serValue_head x ind (lvl + 1)
    have hskip : skipSpace (openGap ind lvl ++ (serValue ind (lvl + 1) x
        ++ (serItemsTail ind lvl xs ++ (closeGap ind lvl ++ (']' :: rest)))))
        = c :: (t ++ (serItemsTail ind lvl xs ++ (closeGap ind lvl ++ (']' :: rest)))) := by
      rw [skipSpace_openGap, hct, List.cons_append]
      exact skipSpace_not_ws c _ hws
    rw [harg, scanValue_arr_branch f _ c _ hskip hbr]
    have hxr : c :: (t ++ (serItemsTail ind lvl xs ++ (closeGap ind lvl ++ (']' :: rest))))
        = serValue ind (lvl + 1) x
            ++ (serItemsTail ind lvl xs ++ (closeGap ind lvl ++ (']' :: rest))) := by
      rw [hct]
      simp
    have hwx : wfList (x :: xs) = true := by
      simpa [wfJson] using hw
    rw [hxr, scanItems_ser x xs ind lvl f rest (by simp [cost] at hc; omega) hwx]
| .obj [], ind, lvl, fuel, rest, hc, _, _ => by
  cases fuel with
  | zero => simp [cost] at hc
  | succ f => rfl
| .obj ((k, v) :: ms), ind, lvl, fuel, rest, hc, _, hw => by
  cases fuel with
  | zero => simp [cost, costPairs] at hc
  | succ f =>
    have harg : serValue ind lvl (.obj ((k, v) :: ms)) ++ rest
        = '{' :: (openGap ind lvl ++ (serString k ++ ':' :: ' ' :: (serValue ind (lvl + 1) v
            ++ (serPairsTail ind lvl ms ++ (closeGap ind lvl ++ ('}' :: rest)))))) := by
      simp [serValue]
    have hskip : skipSpace (openGap ind lvl ++ (serString k ++ ':' :: ' '
        :: (serValue ind (lvl + 1) v
            ++ (serPairsTail ind lvl ms ++ (closeGap ind lvl ++ ('}' :: rest))))))
        = '"' :: ((k.data.flatMap escapeChar ++ ['"']) ++ ':' :: ' '
            :: (serValue ind (lvl + 1) v
              ++ (serPairsTail ind lvl ms ++ (closeGap ind lvl ++ ('}' :: rest))))) := by
      rw [skipSpace_openGap]
      simp only [serString, List.cons_append]
      exact skipSpace_not_ws '"' _ (by decide)
    rw [harg, scanValue_obj_branch f _ '"' _ hskip (by decide)]
    simp only [wfJson, Bool.and_eq_true] at hw
    have hmk : '"' :: ((k.data.flatMap escapeChar ++ ['"']) ++ ':' :: ' '
        :: (serValue ind (lvl + 1) v
          ++ (serPairsTail ind lvl ms ++ (closeGap ind lvl ++ ('}' :: rest)))))
        = serString k ++ ':' :: ' ' :: (serValue ind (lvl + 1) v
            ++ (serPairsTail ind lvl ms ++ (closeGap ind lvl ++ ('}' :: rest)))) := by
      simp [serString]
    rw [hmk, scanPairs_ser k v ms ind lvl f rest (by simp [cost] at hc; omega) hw.2]
    simp [dictOfPairs_self _ hw.1]
termination_by v _ _ _ _ _ _ _ => sizeOf v

theorem scanItems_ser : ∀ (x : Json) (xs : List Json) (ind : Option Nat) (lvl fuel : Nat)
    (rest : List Char),
    costItems (x :: xs) ≤ fuel → wfList (x :: xs) = true →
    scanItems fuel (serValue ind (lvl + 1) x
        ++ (serItemsTail ind lvl xs ++ (closeGap ind lvl ++ (']' :: rest))))
      = .ok (x :: xs, rest)
| x, xs, ind, lvl, fuel, rest, hc, hw => by
  cases fuel with
  | zero => simp [costItems] at hc
  | succ f =>
    simp only [costItems] at hc
    simp only [wfList, Bool.and_eq_true] at hw
    have hstop : numStop (serItemsTail ind lvl xs ++ (closeGap ind lvl ++ (']' :: rest)))
        = true := by
      cases xs with
      | nil =>
        simpa [serItemsTail] using numStop_closeGap ind lvl ']' rest (by decide)
      | cons y ys =>
        simpa [serItemsTail, List.append_assoc] using
          numStop_itemGap ind lvl _
    have hv := scanValue_ser x ind (lvl + 1) f
      (serItemsTail ind lvl xs ++ (closeGap ind lvl ++ (']' :: rest)))
      (by omega) hstop hw.1
    rw [scanItems.eq_def]
    simp only [hv]
    cases xs with
    | nil =>
      have hsk : skipSpace (serItemsTail ind lvl ([] : List Json)
          ++ (closeGap ind lvl ++ (']' :: rest))) = ']' :: rest := by
        simpa [serItemsTail] using skipSpace_closeGap_cons ind lvl ']' rest (by decide)
      rw [hsk]
      rfl
    | cons y ys =>
      obtain ⟨g, hg, hgskip⟩ := itemGap_skip ind lvl
        (serValue ind (lvl + 1) y ++ (serItemsTail ind lvl ys
          ++ (closeGap ind lvl ++ (']' :: rest))))
      have hsk : skipSpace (serItemsTail ind lvl (y :: ys)
          ++ (closeGap ind lvl ++ (']' :: rest)))
          = ',' :: (g ++ (serValue ind (lvl + 1) y ++ (serItemsTail ind lvl ys
              ++ (closeGap ind lvl ++ (']' :: rest))))) := by
        simp only [serItemsTail, hg, List.cons_append, List.append_assoc]
        exact skipSpace_not_ws ',' _ (by decide)
      rw [hsk]
      have hsk2 : skipSpace (g ++ (serValue ind (lvl + 1) y ++ (serItemsTail ind lvl ys
          ++ (closeGap ind lvl ++ (']' :: rest)))))
          = serValue ind (lvl + 1) y ++ (serItemsTail ind lvl ys
              ++ (closeGap ind lvl ++ (']' :: rest))) := by
        rw [hgskip]
        exact skipSpace_serValue y ind (lvl + 1) _
      have hys := scanItems_ser y ys ind lvl f rest (by simp [costItems] at hc ⊢; omega) hw.2
      simp only [hsk2, hys]
termination_by x xs _ _ _ _ _ _ => sizeOf x + sizeOf xs + 1

theorem scanPairs_ser : ∀ (k : String) (v : Json) (ms : List (String × Json))
    (ind : Option Nat) (lvl fuel : Nat) (rest : List Char),
    costPairs ((k, v) :: ms) ≤ fuel → wfPairs ((k, v) :: ms) = true →
    scanPairs fuel (serString k ++ ':' :: ' ' :: (serValue ind (lvl + 1) v
        ++ (serPairsTail ind lvl ms ++ (closeGap ind lvl ++ ('}' :: rest)))))
      = .ok ((k, v) :: ms, rest)
| k, v, ms, ind, lvl, 0, rest, hc, _ => by
  simp [costPairs] at hc
| k, v, [], ind, lvl, f + 1, rest, hc, hw => by
  simp only [costPairs] at hc
  simp only [wfPairs, Bool.and_eq_true] at hw
  have harg : serString k ++ ':' :: ' ' :: (serValue ind (lvl + 1) v
      ++ (serPairsTail ind lvl ([] : List (String × Json))
        ++ (closeGap ind lvl ++ ('}' :: rest))))
      = '"' :: (k.data.flatMap escapeChar ++ ('"' :: (':' :: (' '
          :: (serValue ind (lvl + 1) v ++ (serPairsTail ind lvl ([] : List (String × Json))
            ++ (closeGap ind lvl ++ ('}' :: rest)))))))) := by
    simp [serString]
  have hks := scanString_ser k (':' :: (' ' :: (serValue ind (lvl + 1) v
    ++ (serPairsTail ind lvl ([] : List (String × Json))
      ++ (closeGap ind lvl ++ ('}' :: rest))))))
  have hstop : numStop (serPairsTail ind lvl ([] : List (String × Json))
      ++ (closeGap ind lvl ++ ('}' :: rest))) = true := by
    simpa [serPairsTail] using numStop_closeGap ind lvl '}' rest (by decide)
  have hv := scanValue_ser v ind (lvl + 1) f
    (serPairsTail ind lvl ([] : List (String × Json)) ++ (closeGap ind lvl ++ ('}' :: rest)))
    (by omega) hstop hw.1
  have hsk0 : skipSpace (' ' :: (serValue ind (lvl + 1) v
      ++ (serPairsTail ind lvl ([] : List (String × Json))
        ++ (closeGap ind lvl ++ ('}' :: rest)))))
      = serValue ind (lvl + 1) v ++ (serPairsTail ind lvl ([] : List (String × Json))
          ++ (closeGap ind lvl ++ ('}' :: rest))) := by
    rw [skipSpace_ws_cons ' ' _ (by decide)]
    exact skipSpace_serValue v ind (lvl + 1) _
  have hsk1 : skipSpace (':' :: (' ' :: (serValue ind (lvl + 1) v
      ++ (serPairsTail ind lvl ([] : List (String × Json))
        ++ (closeGap ind lvl ++ ('}' :: rest))))))
      = ':' :: (' ' :: (serValue ind (lvl + 1) v
          ++ (serPairsTail ind lvl ([] : List (String × Json))
            ++ (closeGap ind lvl ++ ('}' :: rest))))) :=
    skipSpace_not_ws ':' _ (by decide)
  have hsk : skipSpace (serPairsTail ind lvl ([] : List (String × Json))
      ++ (closeGap ind lvl ++ ('}' :: rest))) = '}' :: rest := by
    simpa [serPairsTail] using skipSpace_closeGap_cons ind lvl '}' rest (by decide)
  rw [harg, scanPairs.eq_def]
  simp only [hks, hsk1, hsk0, hv, hsk]
| k, v, (k2, v2) :: ms2, ind, lvl, f + 1, rest, hc, hw => by
  simp only [costPairs] at hc
  simp only [wfPairs, Bool.and_eq_true] at hw
  have harg : serString k ++ ':' :: ' ' :: (serValue ind (lvl + 1) v
      ++ (serPairsTail ind lvl ((k2, v2) :: ms2) ++ (closeGap ind lvl ++ ('}' :: rest))))
      = '"' :: (k.data.flatMap escapeChar ++ ('"' :: (':' :: (' '
          :: (serValue ind (lvl + 1) v ++ (serPairsTail ind lvl ((k2, v2) :: ms2)
            ++ (closeGap ind lvl ++ ('}' :: rest)))))))) := by
    simp [serString]
  have hks := scanString_ser k (':' :: (' ' :: (serValue ind (lvl + 1) v
    ++ (serPairsTail ind lvl ((k2, v2) :: ms2) ++ (closeGap ind lvl ++ ('}' :: rest))))))
  have hstop : numStop (serPairsTail ind lvl ((k2, v2) :: ms2)
      ++ (closeGap ind lvl ++ ('}' :: rest))) = true := by
    simpa [serPairsTail, List.append_assoc] using numStop_itemGap ind lvl _
  have hv := scanValue_ser v ind (lvl + 1) f
    (serPairsTail ind lvl ((k2, v2) :: ms2) ++ (closeGap ind lvl ++ ('}' :: rest)))
    (by omega) hstop hw.1
  have hsk0 : skipSpace (' ' :: (serValue ind (lvl + 1) v
      ++ (serPairsTail ind lvl ((k2, v2) :: ms2) ++ (closeGap ind lvl ++ ('}' :: rest)))))
      = serValue ind (lvl + 1) v ++ (serPairsTail ind lvl ((k2, v2) :: ms2)
          ++ (closeGap ind lvl ++ ('}' :: rest))) := by
    rw [skipSpace_ws_cons ' ' _ (by decide)]
    exact skipSpace_serValue v ind (lvl + 1) _
  have hsk1 : skipSpace (':' :: (' ' :: (serValue ind (lvl + 1) v
      ++ (serPairsTail ind lvl ((k2, v2) :: ms2) ++ (closeGap ind lvl ++ ('}' :: rest))))))
      = ':' :: (' ' :: (serValue ind (lvl + 1) v
          ++ (serPairsTail ind lvl ((k2, v2) :: ms2)
            ++ (closeGap ind lvl ++ ('}' :: rest))))) :=
    skipSpace_not_ws ':' _ (by decide)
  obtain ⟨g, hg, hgskip⟩ := itemGap_skip ind lvl
    (serString k2 ++ ':' :: ' ' :: (serValue ind (lvl + 1) v2
      ++ (serPairsTail ind lvl ms2 ++ (closeGap ind lvl ++ ('}' :: rest)))))
  have hsk : skipSpace (serPairsTail ind lvl ((k2, v2) :: ms2)
      ++ (closeGap ind lvl ++ ('}' :: rest)))
      = ',' :: (g ++ (serString k2 ++ ':' :: ' ' :: (serValue ind (lvl + 1) v2
          ++ (serPairsTail ind lvl ms2 ++ (closeGap ind lvl ++ ('}' :: rest)))))) := by
    simp only [serPairsTail, hg, List.cons_append, List.append_assoc]
    exact skipSpace_not_ws ',' _ (by decide)
  have hsk2 : skipSpace (g ++ (serString k2 ++ ':' :: ' '
      :: (serValue ind (lvl + 1) v2 ++ (serPairsTail ind lvl ms2
        ++ (closeGap ind lvl ++ ('}' :: rest))))))
      = serString k2 ++ ':' :: ' ' :: (serValue ind (lvl + 1) v2
          ++ (serPairsTail ind lvl ms2 ++ (closeGap ind lvl ++ ('}' :: rest)))) := by
    rw [hgskip]
    simp only [serString, List.cons_append]
    exact skipSpace_not_ws '"' _ (by decide)
  have hms := scanPairs_ser k2 v2 ms2 ind lvl f rest
    (by simp [costPairs] at hc ⊢; omega)
    (by simp only [wfPairs, Bool.and_eq_true]; exact hw.2)
  rw [harg, scanPairs.eq_def]
  simp only [hks, hsk1, hsk0, hv, hsk, hsk2, hms]
termination_by k v ms _ _ _ _ _ _ => sizeOf v + sizeOf ms + 1
end

/-- **Codec round-trip**: parsing a serialized `dict`-shaped value recovers it
exactly, for the compact and every indented rendering. -/
theorem loads_dumps (v : Json) (ind : Option Nat) (h : wfJson v = true) :
    loads (dumps v ind) = .ok v := by
  have hnil : serValue ind 0 v ++ [] = serValue ind 0 v := List.append_nil _
  have hskip : skipSpace (serValue ind 0 v) = serValue ind 0 v := by
    have := skipSpace_serValue v ind 0 []
    rwa [hnil] at this
  have hmain := scanValue_ser v ind 0 ((serValue ind 0 v).length + 1) []
    (cost_le_serValue v ind 0) rfl h
  rw [hnil] at hmain
  have hdata : (dumps v ind).data = serValue ind 0 v := rfl
  simp only [loads, hdata, hskip, hmain]
  rfl

/-! ## Non-ASCII characters pass through the serializer verbatim -/

theorem ne_of_ascii (a c : Char) (ha : a.toNat < 128) (hc : 128 ≤ c.toNat) :
    (a == c) = false := by
  rw [beq_eq_false_iff_ne]
  intro he
  subst he
  omega

theorem count_eq_zero_of_ascii (c : Char) (hc : 128 ≤ c.toNat) (l : List Char)
    (hl : ∀ x ∈ l, x.toNat < 128) : l.count c = 0 := by
  rw [List.count_eq_zero]
  intro hmem
  exact absurd (hl c hmem) (by omega)

theorem count_spacesChars (c : Char) (hc : 128 ≤ c.toNat) (n : Nat) :
    (spacesChars n).count c = 0 := by
  refine count_eq_zero_of_ascii c hc _ ?_
  intro x hx
  rw [spacesChars, List.mem_replicate] at hx
  rw [hx.2]
  decide

theorem count_openGap (c : Char) (hc : 128 ≤ c.toNat) (ind : Option Nat) (lvl : Nat) :
    (openGap ind lvl).count c = 0 := by
  cases ind with
  | none => rfl
  | some n =>
    simp [openGap, List.count_cons, count_spacesChars c hc, ne_of_ascii '\n' c (by decide) hc]

theorem count_closeGap (c : Char) (hc : 128 ≤ c.toNat) (ind : Option Nat) (lvl : Nat) :
    (closeGap ind lvl).count c = 0 := by
  cases ind with
  | none => rfl
  | some n =>
    simp [closeGap, List.count_cons, count_spacesChars c hc, ne_of_ascii '\n' c (by decide) hc]

theorem count_itemGap (c : Char) (hc : 128 ≤ c.toNat) (ind : Option Nat) (lvl : Nat) :
    (itemGap ind lvl).count c = 0 := by
  cases ind with
  | none =>
    simp [itemGap, List.count_cons, ne_of_ascii ',' c (by decide) hc,
      ne_of_ascii ' ' c (by decide) hc]
  | some n =>
    simp [itemGap, List.count_cons, count_spacesChars c hc,
      ne_of_ascii ',' c (by decide) hc, ne_of_ascii '\n' c (by decide) hc]

theorem natChars_all_ascii (n : Nat) : ∀ x ∈ natChars n, x.toNat < 128 := by
  induction n using Nat.strong_induction_on with
  | _ n ih =>
    by_cases h : n < 10
    · rw [natChars_lt n h]
      intro x hx
      rw [List.mem_singleton] at hx
      subst hx
      have hball : ∀ k, k < 10 → (Char.ofNat ('0'.toNat + k)).toNat < 128 := by decide
      exact hball n h
    · rw [natChars_ge n h]
      intro x hx
      rw [List.mem_append] at hx
      cases hx with
      | inl hm => exact ih (n / 10) (Nat.div_lt_self (by omega) (by omega)) x hm
      | inr hm =>
        rw [List.mem_singleton] at hm
        subst hm
        have hball : ∀ k, k < 10 → (Char.ofNat ('0'.toNat + k)).toNat < 128 := by decide
        exact hball (n % 10) (Nat.mod_lt _ (by omega))

theorem count_natChars (c : Char) (hc : 128 ≤ c.toNat) (n : Nat) :
    (natChars n).count c = 0 :=
  count_eq_zero_of_ascii c hc _ (natChars_all_ascii n)

theorem count_intChars (c : Char) (hc : 128 ≤ c.toNat) (i : Int) :
    (intChars i).count c = 0 := by
  by_cases hneg : i < 0
  · simp [intChars, hneg, List.count_cons, count_natChars c hc,
      ne_of_ascii '-' c (by decide) hc]
  · simp [intChars, hneg, count_natChars c hc]

theorem escapeChar_of_nonascii (x : Char) (hx : 128 ≤ x.toNat) : escapeChar x = [x] := by
  have h1 : x ≠ '"' := by
    intro he
    subst he
    exact absurd hx (by decide)
  have h2 : x ≠ '\\' := by
    intro he
    subst he
    exact absurd hx (by decide)
  have h3 : x ≠ '\n' := by
    intro he
    subst he
    exact absurd hx (by decide)
  have h4 : x ≠ '\x0d' := by
    intro he
    subst he
    exact absurd hx (by decide)
  have h5 : x ≠ '\t' := by
    intro he
    subst he
    exact absurd hx (by decide)
  have h8 : ¬ x.toNat = 8 := by omega
  have h12 : ¬ x.toNat = 12 := by omega
  have hlt : ¬ x.toNat < 32 := by omega
  simp [escapeChar, h1, h2, h3, h4, h5, h8, h12, hlt]

theorem escapeChar_ascii (x : Char) (hx : x.toNat < 128) :
    ∀ y ∈ escapeChar x, y.toNat < 128 := by
  by_cases h1 : x = '"'
  · subst h1
    decide
  by_cases h2 : x = '\\'
  · subst h2
    decide
  by_cases h3 : x = '\n'
  · subst h3
    decide
  by_cases h4 : x = '\x0d'
  · subst h4
    decide
  by_cases h5 : x = '\t'
  · subst h5
    decide
  by_cases h8 : x.toNat = 8
  · simp only [escapeChar, if_neg h1, if_neg h2, if_neg h3, if_neg h4, if_neg h5, if_pos h8]
    decide
  by_cases h12 : x.toNat = 12
  · simp only [escapeChar, if_neg h1, if_neg h2, if_neg h3, if_neg h4, if_neg h5,
      if_neg h8, if_pos h12]
    decide
  by_cases hlt : x.toNat < 32
  · simp only [escapeChar, if_neg h1, if_neg h2, if_neg h3, if_neg h4, if_neg h5,
      if_neg h8, if_neg h12, if_pos hlt]
    have hball : ∀ k, k < 16 → (hexDigit k).toNat < 128 := by decide
    intro y hy
    simp only [List.mem_cons, List.not_mem_nil, or_false] at hy
    rcases hy with rfl | rfl | rfl | rfl | rfl | rfl
    · decide
    · decide
    · decide
    · decide
    · exact hball _ (by omega)
    · exact hball _ (by omega)
  · simp only [escapeChar, if_neg h1, if_neg h2, if_neg h3, if_neg h4, if_neg h5,
      if_neg h8, if_neg h12, if_neg hlt]
    intro y hy
    rw [List.mem_singleton] at hy
    subst hy
    exact hx

theorem count_escapeChar (c : Char) (hc : 128 ≤ c.toNat) (x : Char) :
    (escapeChar x).count c = ([x] : List Char).count c := by
  by_cases hx : 128 ≤ x.toNat
  · rw [escapeChar_of_nonascii x hx]
  · rw [count_eq_zero_of_ascii c hc _ (escapeChar_ascii x (by omega)),
      count_eq_zero_of_ascii c hc [x] ?_]
    intro y hy
    rw [List.mem_singleton] at hy
    subst hy
    omega

theorem count_flatMap_escape (c : Char) (hc : 128 ≤ c.toNat) (l : List Char) :
    (l.flatMap escapeChar).count c = l.count c := by
  induction l with
  | nil => rfl
  | cons x l ih =>
    rw [List.flatMap_cons, List.count_append, count_escapeChar c hc x, ih]
    simp [List.count_cons]
    omega

theorem count_serString (c : Char) (hc : 128 ≤ c.toNat) (s : String) :
    (serString s).count c = s.data.count c := by
  simp [serString, List.count_cons, List.count_append, count_flatMap_escape c hc,
    ne_of_ascii '"' c (by decide) hc]

mutual
theorem count_serValue (c : Char) (hc : 128 ≤ c.toNat) :
    ∀ (v : Json) (ind : Option Nat) (lvl : Nat),
      (serValue ind lvl v).count c = charCount c v
| .null, _, _ => by
  simp [serValue, charCount, List.count_cons, ne_of_ascii 'n' c (by decide) hc,
    ne_of_ascii 'u' c (by decide) hc, ne_of_ascii 'l' c (by decide) hc]
| .bool b, _, _ => by
  cases b <;>
    simp [serValue, charCount, List.count_cons, ne_of_ascii 't' c (by decide) hc,
      ne_of_ascii 'r' c (by decide) hc, ne_of_ascii 'u' c (by decide) hc,
      ne_of_ascii 'e' c (by decide) hc, ne_of_ascii 'f' c (by decide) hc,
      ne_of_ascii 'a' c (by decide) hc, ne_of_ascii 'l' c (by decide) hc,
      ne_of_ascii 's' c (by decide) hc]
| .num i, _, _ => by
  simp [serValue, charCount, count_intChars c hc]
| .str s, _, _ => by
  simp [serValue, charCount, count_serString c hc]
| .arr [], _, _ => by
  simp [serValue, charCount, charCountList, List.count_cons,
    ne_of_ascii '[' c (by decide) hc, ne_of_ascii ']' c (by decide) hc]
| .arr (x :: xs), ind, lvl => by
  have h1 := count_serValue c hc x ind (lvl + 1)
  have h2 := count_serItemsTail c hc xs ind lvl
  simp [serValue, charCount, charCountList, List.count_cons, List.count_append,
    count_openGap c hc, count_closeGap c hc, h1, h2,
    ne_of_ascii '[' c (by decide) hc, ne_of_ascii ']' c (by decide) hc]
| .obj [], _, _ => by
  simp [serValue, charCount, charCountPairs, List.count_cons,
    ne_of_ascii '{' c (by decide) hc, ne_of_ascii '}' c (by decide) hc]
| .obj ((k, v) :: ms), ind, lvl => by
  have h1 := count_serValue c hc v ind (lvl + 1)
  have h2 := count_serPairsTail c hc ms ind lvl
  simp [serValue, charCount, charCountPairs, List.count_cons, List.count_append,
    count_openGap c hc, count_closeGap c hc, count_serString c hc, h1, h2,
    ne_of_ascii '{' c (by decide) hc, ne_of_ascii '}' c (by decide) hc,
    ne_of_ascii ':' c (by decide) hc, ne_of_ascii ' ' c (by decide) hc]
  omega
termination_by v _ _ => sizeOf v

theorem count_serItemsTail (c : Char) (hc : 128 ≤ c.toNat) :
    ∀ (xs : List Json) (ind : Option Nat) (lvl : Nat),
      (serItemsTail ind lvl xs).count c = charCountList c xs
| [], _, _ => by simp [serItemsTail, charCountList]
| x :: xs, ind, lvl => by
  have h1 := count_serValue c hc x ind (lvl + 1)
  have h2 := count_serItemsTail c hc xs ind lvl
  simp [serItemsTail, charCountList, List.count_append, count_itemGap c hc, h1, h2]
termination_by xs _ _ => sizeOf xs

theorem count_serPairsTail (c : Char) (hc : 128 ≤ c.toNat) :
    ∀ (ms : List (String × Json)) (ind : Option Nat) (lvl : Nat),
      (serPairsTail ind lvl ms).count c = charCountPairs c ms
| [], _, _ => by simp [serPairsTail, charCountPairs]
| (k, v) :: ms, ind, lvl => by
  have h1 := count_serValue c hc v ind (lvl + 1)
  have h2 := count_serPairsTail c hc ms ind lvl
  simp [serPairsTail, charCountPairs, List.count_cons, List.count_append,
    count_itemGap c hc, count_serString c hc, h1, h2,
    ne_of_ascii ':' c (by decide) hc, ne_of_ascii ' ' c (by decide) hc]
  omega
termination_by ms _ _ => sizeOf ms
end

/-! ## Extraction-path lemmas -/

theorem gatherLookups_forall (items : List Json) (ts : List String)
    (h : List.Forall₂ (fun seg t => Json.index seg "transcript" = Except.ok (Json.str t))
      items ts) :
    gatherLookups items = .ok (ts.map Json.str) := by
  induction h with
  | nil => rfl
  | cons hR _ ih =>
    rename_i seg t items' ts'
    simp [gatherLookups, hR, ih, Bind.bind, Except.bind, Functor.map, Except.map, Pure.pure, Except.pure]

theorem joinCheck_strs (ts : List String) : joinCheck (ts.map Json.str) = .ok ts := by
  induction ts with
  | nil => rfl
  | cons t ts ih => simp [joinCheck, ih, Bind.bind, Except.bind, Functor.map, Except.map, Pure.pure, Except.pure]

theorem gatherLookups_missing_key (items : List Json)
    (hobj : ∀ seg ∈ items, ∃ ms, seg = Json.obj ms)
    (hmiss : ∃ seg ∈ items, ∃ ms, seg = Json.obj ms ∧ lookupKey ms "transcript" = none) :
    gatherLookups items = .error (.keyError "transcript") := by
  induction items with
  | nil =>
    obtain ⟨seg, hs, _⟩ := hmiss
    cases hs
  | cons seg rest ih =>
    obtain ⟨ms, hms⟩ := hobj seg (by simp)
    subst hms
    cases hl : lookupKey ms "transcript" with
    | none => simp [gatherLookups, Json.index, hl, Bind.bind, Except.bind, Functor.map, Except.map]
    | some x =>
      have hmiss' : ∃ seg ∈ rest, ∃ ms, seg = Json.obj ms ∧ lookupKey ms "transcript" = none := by
        obtain ⟨seg', hs', ms', hms', hl'⟩ := hmiss
        rcases List.mem_cons.mp hs' with he | hin
        · subst he
          injection hms' with hmm
          subst hmm
          rw [hl'] at hl
          cases hl
        · exact ⟨seg', hin, ms', hms', hl'⟩
      have ht := ih (fun s hs => hobj s (by simp [hs])) hmiss'
      simp [gatherLookups, Json.index, hl, ht, Bind.bind, Except.bind, Functor.map, Except.map]

/-! ## File-write lemmas -/

theorem putFile_cons_ne (f : String × List Nat) (fs : List (String × List Nat))
    (path : String) (bytes : List Nat) (hf : ¬ f.1 = path) :
    putFile (f :: fs) path bytes = f :: putFile fs path bytes := by
  by_cases h : fs.any (fun g => g.1 = path) <;> simp [putFile, hf, h]

theorem lookupFile_putFile (files : List (String × List Nat)) (path : String)
    (bytes : List Nat) : lookupFile (putFile files path bytes) path = some bytes := by
  induction files with
  | nil => simp [putFile, lookupFile, List.find?]
  | cons f fs ih =>
    by_cases hf : f.1 = path
    · have hany : (f :: fs).any (fun g => g.1 = path) = true := by
        simp [List.any_cons, hf]
      simp [putFile, hany, lookupFile, List.find?, hf]
    · rw [putFile_cons_ne f fs path bytes hf]
      simpa [lookupFile, List.find?, hf] using ih

/-! # Claim theorems -/

/-- C1: for every input string that parses as a JSON object whose `segments`
key holds a sequence of objects each carrying a string `transcript` field,
`extract_full_transcript` returns exactly those transcript strings joined with
a single ASCII space in sequence order (an empty `segments` sequence yields the
empty string, the `ts = []` instance). -/
theorem extract_transcript_joins_segments (s : String) (v : Json) (items : List Json)
    (ts : List String) (hload : loads s = .ok v)
    (hseg : v.index "segments" = .ok (.arr items))
    (hts : List.Forall₂ (fun seg t => Json.index seg "transcript" = Except.ok (Json.str t))
      items ts) :
    extract_full_transcript s = .ok (String.intercalate " " ts) := by
  have hg := gatherLookups_forall items ts hts
  have hj := joinCheck_strs ts
  simp [extract_full_transcript, extract_body, pyLoads, hload, hseg, pyIter, hg, hj,
    Bind.bind, Except.bind, Pure.pure, Except.pure]

/-- Witness for C1: the two worked examples of the specification. -/
theorem extract_transcript_joins_segments_witness :
    extract_full_transcript
        "\x7b\"segments\": [\x7b\"transcript\": \"hello\"\x7d, \x7b\"transcript\": \"world\"\x7d]\x7d"
        = .ok "hello world"
      ∧ extract_full_transcript "\x7b\"segments\": []\x7d" = .ok "" := by
  constructor
  · exact extract_transcript_joins_segments _
      (.obj [("segments", .arr [.obj [("transcript", .str "hello")],
        .obj [("transcript", .str "world")]])])
      [.obj [("transcript", .str "hello")], .obj [("transcript", .str "world")]]
      ["hello", "world"] rfl rfl
      (List.Forall₂.cons rfl (List.Forall₂.cons rfl List.Forall₂.nil))
  · exact extract_transcript_joins_segments _ (.obj [("segments", .arr [])]) [] []
      rfl rfl List.Forall₂.nil

/-- C2 counterexample: the input `"0"` parses as JSON, yet
`extract_full_transcript` does not return a string — `data["segments"]` on an
`int` raises a `TypeError` that the `except (json.JSONDecodeError, KeyError)`
clause does not catch, so the exception escapes the operation boundary. -/
theorem extract_transcript_typeerror_escapes :
    loads "0" = .ok (.num 0)
      ∧ extract_full_transcript "0"
        = .error (.typeError "\x27int\x27 object is not subscriptable") :=
  ⟨rfl, rfl⟩

/-- C2 (amended): `json_to_text` returns a string value for every input;
`extract_full_transcript` either returns a string value or lets exactly a
`TypeError` escape (raised when the parsed document, the segments value, a
segment, or a transcript value has an unexpected type) — parse errors and
missing keys never escape. -/
theorem operations_exception_boundary (s : String) :
    (∃ t, json_to_text s = .ok t)
      ∧ ((∃ t, extract_full_transcript s = .ok t)
        ∨ (∃ m, extract_full_transcript s = .error (.typeError m))) := by
  constructor
  · cases hl : loads s with
    | ok v =>
      exact ⟨dumps v (some 4), by
        simp [json_to_text, json_to_text_body, pyLoads, hl, Bind.bind, Except.bind,
          Pure.pure, Except.pure]⟩
    | error m =>
      exact ⟨"Invalid JSON data: " ++ m, by
        simp [json_to_text, json_to_text_body, pyLoads, hl, Bind.bind, Except.bind]⟩
  · cases hb : extract_body s with
    | ok t => exact Or.inl ⟨t, by simp [extract_full_transcript, hb]⟩
    | error e =>
      cases e with
      | jsonDecodeError m =>
        exact Or.inl ⟨"Error extracting transcript: " ++ pyStr (.jsonDecodeError m),
          by simp [extract_full_transcript, hb]⟩
      | keyError k =>
        exact Or.inl ⟨"Error extracting transcript: " ++ pyStr (.keyError k),
          by simp [extract_full_transcript, hb]⟩
      | typeError m => exact Or.inr ⟨m, by simp [extract_full_transcript, hb]⟩

/-- C3 counterexample: `"[]"` parses but lacks a `segments` key, and
`extract_full_transcript` does not return an error string — subscripting a
list with a string key raises an uncaught `TypeError` instead. -/
theorem extract_transcript_nonobject_raises :
    loads "[]" = .ok (.arr [])
      ∧ extract_full_transcript "[]"
        = .error (.typeError "list indices must be integers or slices, not str") :=
  ⟨rfl, rfl⟩

/-- C3 (amended): `extract_full_transcript` returns
`"Error extracting transcript: <cause>"` whenever JSON parsing fails, or the
input parses to an *object* lacking a `segments` key, or `segments` is a
sequence of objects of which some lacks a `transcript` field. -/
theorem extract_transcript_error_string (s : String) :
    (∀ m, loads s = .error m →
      extract_full_transcript s = .ok ("Error extracting transcript: " ++ m))
      ∧ (∀ ms, loads s = .ok (.obj ms) → lookupKey ms "segments" = none →
        extract_full_transcript s = .ok "Error extracting transcript: \x27segments\x27")
      ∧ (∀ v items, loads s = .ok v → v.index "segments" = .ok (.arr items) →
        (∀ seg ∈ items, ∃ ms, seg = Json.obj ms) →
        (∃ seg ∈ items, ∃ ms, seg = Json.obj ms ∧ lookupKey ms "transcript" = none) →
        extract_full_transcript s = .ok "Error extracting transcript: \x27transcript\x27") := by
  refine ⟨?_, ?_, ?_⟩
  · intro m hm
    simp [extract_full_transcript, extract_body, pyLoads, hm, pyStr, Bind.bind, Except.bind]
  · intro ms hm hl
    simp [extract_full_transcript, extract_body, pyLoads, hm, Json.index, hl, pyStr,
      Bind.bind, Except.bind]
  · intro v items hload hseg hobjs hmiss
    have hg := gatherLookups_missing_key items hobjs hmiss
    simp [extract_full_transcript, extract_body, pyLoads, hload, hseg, pyIter, hg, pyStr,
      Bind.bind, Except.bind]

/-- Witness for C3 (amended): one concrete input per failure shape. -/
theorem extract_transcript_error_string_witness :
    extract_full_transcript "not json"
        = .ok ("Error extracting transcript: " ++ "Expecting value")
      ∧ extract_full_transcript "\x7b\"no_segments\": []\x7d"
        = .ok "Error extracting transcript: \x27segments\x27"
      ∧ extract_full_transcript "\x7b\"segments\": [\x7b\x7d]\x7d"
        = .ok "Error extracting transcript: \x27transcript\x27" := by
  refine ⟨?_, ?_, ?_⟩
  · exact (extract_transcript_error_string "not json").1 "Expecting value" rfl
  · exact (extract_transcript_error_string _).2.1 [("no_segments", .arr [])] rfl rfl
  · refine (extract_transcript_error_string _).2.2 (.obj [("segments", .arr [.obj []])])
      [.obj []] rfl rfl ?_ ⟨.obj [], by simp, [], rfl, rfl⟩
    intro seg hs
    rw [List.mem_singleton] at hs
    exact ⟨[], hs⟩

/-- C4: for every `dict`-shaped JSON value `v`, `json_to_text` applied to the
serialization of `v` succeeds, and its output parses back to exactly `v`
(round-trip on valid input). -/
theorem format_json_round_trip (v : Json) (h : wfJson v = true) :
    json_to_text (dumps v none) = .ok (dumps v (some 4))
      ∧ loads (dumps v (some 4)) = .ok v := by
  have h1 := loads_dumps v none h
  have h2 := loads_dumps v (some 4) h
  exact ⟨by simp [json_to_text, json_to_text_body, pyLoads, h1, Bind.bind, Except.bind,
    Pure.pure, Except.pure], h2⟩

/-- Witness for C4: a concrete nested value round-trips. -/
theorem format_json_round_trip_witness :
    wfJson (.obj [("a", .arr [.num 1, .str "x"]), ("b", .null)]) = true
      ∧ (json_to_text (dumps (.obj [("a", .arr [.num 1, .str "x"]), ("b", .null)]) none)
          = .ok (dumps (.obj [("a", .arr [.num 1, .str "x"]), ("b", .null)]) (some 4))
        ∧ loads (dumps (.obj [("a", .arr [.num 1, .str "x"]), ("b", .null)]) (some 4))
          = .ok (.obj [("a", .arr [.num 1, .str "x"]), ("b", .null)])) :=
  ⟨rfl, format_json_round_trip _ rfl⟩

/-- C5: for every input string that does not parse as JSON, `json_to_text`
returns (rather than raises) a string starting with `"Invalid JSON data: "`
that embeds the parse-error description. -/
theorem format_json_invalid_prefix (s m : String) (h : loads s = .error m) :
    json_to_text s = .ok ("Invalid JSON data: " ++ m) := by
  simp [json_to_text, json_to_text_body, pyLoads, h, Bind.bind, Except.bind]

/-- Witness for C5: the spec's malformed example input. -/
theorem format_json_invalid_prefix_witness :
    loads "\x7bnot json" = .error "Expecting property name enclosed in double quotes"
      ∧ json_to_text "\x7bnot json"
        = .ok ("Invalid JSON data: " ++ "Expecting property name enclosed in double quotes") :=
  ⟨rfl, format_json_invalid_prefix _ _ rfl⟩

/-- C6: for every input string that parses as JSON, `json_to_text` re-renders
it with 4-space indentation (`dumps · (some 4)`), and every code point outside
the ASCII range appears in the output exactly as often as in the parsed
value's strings — verbatim, never as a numeric escape. -/
theorem format_json_indent_and_nonascii (s : String) (v : Json) (h : loads s = .ok v) :
    json_to_text s = .ok (dumps v (some 4))
      ∧ ∀ c : Char, 128 ≤ c.toNat → (dumps v (some 4)).data.count c = charCount c v := by
  constructor
  · simp [json_to_text, json_to_text_body, pyLoads, h, Bind.bind, Except.bind,
      Pure.pure, Except.pure]
  · intro c hcc
    have hdata : (dumps v (some 4)).data = serValue (some 4) 0 v := rfl
    rw [hdata]
    exact count_serValue c hcc v (some 4) 0

/-- Witness for C6: Khmer script passes through unescaped. -/
theorem format_json_indent_and_nonascii_witness :
    loads "[\"ក\"]" = .ok (.arr [.str "ក"])
      ∧ json_to_text "[\"ក\"]" = .ok (dumps (.arr [.str "ក"]) (some 4))
      ∧ 128 ≤ 'ក'.toNat
      ∧ (dumps (.arr [.str "ក"]) (some 4)).data.count 'ក' = charCount 'ក' (.arr [.str "ក"]) :=
  ⟨rfl, (format_json_indent_and_nonascii "[\"ក\"]" (.arr [.str "ក"]) rfl).1, by decide,
    (format_json_indent_and_nonascii "[\"ក\"]" (.arr [.str "ក"]) rfl).2 'ក' (by decide)⟩

/-- C7 counterexample: with the empty string supplied as the token — a token
that is present but falsy — no `Authorization` header is attached, refuting
"attached exactly when a token is present". -/
theorem auth_header_missing_for_empty_token :
    (some "" : Option String) ≠ none ∧ requestHeaders (some "") = [] :=
  ⟨by decide, rfl⟩

/-- C7 (amended): the `Authorization: Bearer <token>` header is attached
exactly when a *truthy* (non-`None`, non-empty) token is supplied; on
transport failure or a 4xx/5xx status the call returns
`"Error fetching data: <cause>"` in place of the body, and on any other
status it returns the response body text. -/
theorem fetch_header_and_error_behavior
    (get : String → List (String × String) → HttpResult) (url : String)
    (token : Option String) :
    (pyTruthy token = true →
      requestHeaders token = [("Authorization", "Bearer " ++ token.getD "")])
      ∧ (pyTruthy token = false → requestHeaders token = [])
      ∧ (∀ m, get url (requestHeaders token) = .connectionError m →
        load_from_localhost get url token = "Error fetching data: " ++ m)
      ∧ (∀ r, get url (requestHeaders token) = .response r →
        400 ≤ r.statusCode → r.statusCode < 600 →
        load_from_localhost get url token = "Error fetching data: " ++ statusErrorMsg r url)
      ∧ (∀ r, get url (requestHeaders token) = .response r →
        (r.statusCode < 400 ∨ 600 ≤ r.statusCode) →
        load_from_localhost get url token = r.text) := by
  refine ⟨?_, ?_, ?_, ?_, ?_⟩
  · intro ht
    simp [requestHeaders, ht]
  · intro ht
    simp [requestHeaders, ht]
  · intro m hm
    simp [load_from_localhost, hm]
  · intro r hr h4 h6
    simp only [load_from_localhost, hr]
    rw [if_pos ⟨h4, h6⟩]
  · intro r hr hout
    simp only [load_from_localhost, hr]
    rw [if_neg (by omega)]

/-- Witness for C7 (amended): concrete oracles for each outcome. -/
theorem fetch_header_and_error_behavior_witness :
    requestHeaders (some "secret") = [("Authorization", "Bearer secret")]
      ∧ load_from_localhost (fun _ _ => .connectionError "connection refused")
          "http://localhost:8000/data" none
        = "Error fetching data: " ++ "connection refused"
      ∧ load_from_localhost (fun _ _ => .response ⟨404, "Not Found", ""⟩) "u" none
        = "Error fetching data: " ++ statusErrorMsg ⟨404, "Not Found", ""⟩ "u"
      ∧ load_from_localhost (fun _ _ => .response ⟨200, "OK", "payload"⟩) "u" none
        = "payload" := by
  refine ⟨?_, ?_, ?_, ?_⟩
  · exact (fetch_header_and_error_behavior (fun _ _ => .connectionError "x") "u"
      (some "secret")).1 rfl
  · exact (fetch_header_and_error_behavior (fun _ _ => .connectionError "connection refused")
      "http://localhost:8000/data" none).2.2.1 "connection refused" rfl
  · exact (fetch_header_and_error_behavior (fun _ _ => .response ⟨404, "Not Found", ""⟩)
      "u" none).2.2.2.1 ⟨404, "Not Found", ""⟩ rfl (by decide) (by decide)
  · exact (fetch_header_and_error_behavior (fun _ _ => .response ⟨200, "OK", "payload"⟩)
      "u" none).2.2.2.2 ⟨200, "OK", "payload"⟩ rfl (Or.inl (by decide))

/-- C8: when the destination's parent-directory name is nonempty, a
`save_transcript_to_file` call returns `true`, prints nothing, creates the
missing intermediate directories, and the file holds exactly the UTF-8
encoding of the content (overwriting any previous binding); the failure path
returns `false` with a diagnostic line and leaves the filesystem unchanged. -/
theorem write_file_success_and_failure (fs : FileSystem) (t p : String) :
    (dirname p ≠ "" →
      (save_transcript_to_file fs t p).2.1 = true
        ∧ lookupFile (save_transcript_to_file fs t p).1.files p = some (utf8Bytes t)
        ∧ (∀ d ∈ dirChain ((dirname p).length + 1) (dirname p),
            d ∈ (save_transcript_to_file fs t p).1.dirs)
        ∧ (save_transcript_to_file fs t p).2.2 = [])
      ∧ (dirname p = "" →
        save_transcript_to_file fs t p
          = (fs, false,
             ["Error saving transcript: [Errno 2] No such file or directory: \x27\x27"])) := by
  constructor
  · intro hdir
    have hmk : makedirs fs (dirname p)
        = .ok ⟨dirChain ((dirname p).length + 1) (dirname p) ++ fs.dirs, fs.files⟩ := by
      simp [makedirs, hdir]
    refine ⟨?_, ?_, ?_, ?_⟩
    · simp [save_transcript_to_file, hmk]
    · simp [save_transcript_to_file, hmk, lookupFile_putFile]
    · intro d hd
      simp only [save_transcript_to_file, hmk]
      exact List.mem_append_left _ hd
    · simp [save_transcript_to_file, hmk]
  · intro hdir
    simp [save_transcript_to_file, makedirs, hdir]

/-- Witness for C8: the spec's example write into a missing directory chain. -/
theorem write_file_success_and_failure_witness :
    dirname "tmp/new/dir/file.txt" ≠ ""
      ∧ ((save_transcript_to_file ⟨[], []⟩ "abc" "tmp/new/dir/file.txt").2.1 = true
        ∧ lookupFile (save_transcript_to_file ⟨[], []⟩ "abc" "tmp/new/dir/file.txt").1.files
            "tmp/new/dir/file.txt" = some (utf8Bytes "abc")
        ∧ (∀ d ∈ dirChain ((dirname "tmp/new/dir/file.txt").length + 1)
              (dirname "tmp/new/dir/file.txt"),
            d ∈ (save_transcript_to_file ⟨[], []⟩ "abc" "tmp/new/dir/file.txt").1.dirs)
        ∧ (save_transcript_to_file ⟨[], []⟩ "abc" "tmp/new/dir/file.txt").2.2 = []) :=
  ⟨by decide,
    (write_file_success_and_failure ⟨[], []⟩ "abc" "tmp/new/dir/file.txt").1 (by decide)⟩

/-- C9: an empty-string token attaches no `Authorization` header even though a
token argument was supplied — attachment follows Python truthiness (`if
token:`), so the empty token behaves exactly like `None`, while a non-empty
token attaches the Bearer header. -/
theorem auth_header_truthiness :
    requestHeaders (some "") = []
      ∧ requestHeaders none = []
      ∧ requestHeaders (some "x") = [("Authorization", "Bearer x")]
      ∧ ∀ (get : String → List (String × String) → HttpResult) (url : String),
          load_from_localhost get url (some "") = load_from_localhost get url none := by
  refine ⟨rfl, rfl, rfl, ?_⟩
  intro get url
  rfl

/-- C10: a destination path with no directory component makes
`save_transcript_to_file` return `false` without writing: `os.path.dirname`
yields `""`, and `os.makedirs("")` raises before the write is attempted. -/
theorem bare_filename_write_returns_false (fs : FileSystem) (t p : String)
    (h : ∀ c ∈ p.data, c ≠ '/') :
    dirname p = ""
      ∧ save_transcript_to_file fs t p
        = (fs, false,
           ["Error saving transcript: [Errno 2] No such file or directory: \x27\x27"]) := by
  have hd : dirname p = "" := by
    have hdrop : p.data.reverse.dropWhile (fun c => c ≠ '/') = [] := by
      rw [List.dropWhile_eq_nil_iff]
      intro x hx
      simpa using h x (List.mem_reverse.mp hx)
    unfold dirname dirnameChars
    rw [hdrop]
    rfl
  refine ⟨hd, ?_⟩
  simp [save_transcript_to_file, makedirs, hd]

/-- Witness for C10: a bare filename fails and writes nothing. -/
theorem bare_filename_write_returns_false_witness :
    (∀ c ∈ "file.txt".data, c ≠ '/')
      ∧ (dirname "file.txt" = ""
        ∧ save_transcript_to_file ⟨[], []⟩ "abc" "file.txt"
          = (⟨[], []⟩, false,
             ["Error saving transcript: [Errno 2] No such file or directory: \x27\x27"])) :=
  ⟨by decide, bare_filename_write_returns_false ⟨[], []⟩ "abc" "file.txt" (by decide)⟩
